import Mathlib

/-!
Verification of the VPR packer (clusterer) core against its specification.

Each section shallowly embeds one routine of `vpr/SRC/pack/cluster.cpp` or
`vpr/SRC/base/read_place.cpp` as executable Lean definitions, translated
directly from the C++ source.  Floating point gain values are modelled as
rationals, machine integers as `Nat`/`Int`, fallible code as `Except`/`Option`.

Layout: all definitions first, then all theorems.
-/

/-! ## Candidate priority queue: add_molecule_to_pb_stats_candidates
(cluster.cpp lines 802-850).

Molecules are identified by naturals.  The source compares molecules only
through `get_molecule_gain(molecule, gain)`, a pure function of the molecule
and the per-block gain map, so the queue logic is parametrised by a gain
function `g : MolId → ℚ`.  `feasible_blocks[0 .. num_feasible_blocks-1]` is
modelled as a list whose head is index 0 (the minimum-gain end);
`num_feasible_blocks` is the list length. -/

abbrev MolId := Nat

/-- The full-array branch: the single-pass insertion sort that overwrites
`feasible_blocks[0]` (the minimum) and shifts elements down until the slot
for the new molecule is found (the loop over `j` in lines 818-831).  The
input list is `feasible_blocks[1 .. num-1]` (the original array minus its
evicted head). -/
def evict_insert (g : MolId → ℚ) (mol : MolId) : List MolId → List MolId
  | [] => [mol]
  | x :: xs => if g mol ≤ g x then mol :: x :: xs else x :: evict_insert g mol xs

/-- The growth branch's downward scan (lines 835-844), expressed on the
reversed array (top of the queue first): shift an element down while its
gain is strictly greater than the new molecule's, then place the new
molecule. -/
def grow_insert_rev (g : MolId → ℚ) (mol : MolId) : List MolId → List MolId
  | [] => [mol]
  | x :: xs => if g mol < g x then x :: grow_insert_rev g mol xs else mol :: x :: xs

/-- The growth branch (array not yet at capacity): insertion sort from the
top of the array, growing `num_feasible_blocks` by one. -/
def grow_insert (g : MolId → ℚ) (mol : MolId) (q : List MolId) : List MolId :=
  (grow_insert_rev g mol q.reverse).reverse

/-- `add_molecule_to_pb_stats_candidates` (cluster.cpp lines 802-850).
First the duplicate scan (lines 806-810): if the molecule is already in the
queue, do nothing.  Then the capacity test
`num_feasible_blocks >= max_queue_size - 1` (line 812) selects between the
evict-and-insert branch (guarded by a strict gain comparison against the
current minimum `feasible_blocks[0]`, line 815) and the growth branch.
The `[]` case of the full branch is unreachable for `max_queue_size ≥ 2`
(the source would read `feasible_blocks[0]` of an empty array there). -/
def add_molecule_to_pb_stats_candidates (g : MolId → ℚ) (mol : MolId)
    (max_queue_size : Nat) (q : List MolId) : List MolId :=
  if mol ∈ q then q
  else if max_queue_size - 1 ≤ q.length then
    match q with
    | [] => []
    | x :: xs => if g x < g mol then evict_insert g mol xs else x :: xs
  else grow_insert g mol q

/-! ## Gain marking: mark_and_update_partial_gain (cluster.cpp lines 1644-1736).

Atoms and nets are identified by naturals.  The walk from the clustered
atom's parent pb up to the cluster root updates each pb's `pb_stats`
independently; the chain is modelled as a list of per-pb stats records,
innermost pb first, cluster root last.  `std::map` containers whose absence
is observed through `.count(..) == 0` are modelled as `Option`-valued
functions; `num_pins_of_net_in_pb` is modelled as a `Nat`-valued function
(the source creates an entry as 0 and immediately increments it, so an
absent entry and a 0 entry are indistinguishable afterwards).
`update_connection_gain_values` and `update_timing_gain_values` touch only
the `connectiongain` resp. `timinggain` maps of the current pb; they are
passed as parameters acting on exactly those fields. -/

abbrev AtomId := Nat
abbrev NetId := Nat

/-- The data of one atom net used by the marking walk: the blocks of its
sink pins, the blocks of all its pins (driver first), its global flag, and
whether `net_output_feeds_driving_block_input[net] != 0`. -/
structure AtomNet where
  sinkBlocks : List AtomId
  pinBlocks : List AtomId
  isGlobal : Bool
  outputFeedsDriver : Bool

/-- The fields of one pb's `t_pb_stats` touched by the marking walk. -/
structure PbStatsGain where
  marked_nets : List NetId
  num_pins_of_net_in_pb : NetId → Nat
  marked_blocks : List AtomId
  sharinggain : AtomId → Option ℚ
  hillgain : AtomId → Option ℚ
  connectiongain : AtomId → Option ℚ
  timinggain : AtomId → Option ℚ
  tie_break_high_fanout_net : Option NetId

/-- Sharing/hill gain update for one pin block (cluster.cpp lines
1702-1715): unclustered blocks get first-touch initialisation
(`sharinggain = 1`, `hillgain = 1 - num_ext_inputs_atom_block`, pushed on
`marked_blocks`) or an increment of both gains. -/
def mark_block_share_gain (num_ext_inputs_atom_block : AtomId → ℤ)
    (atom_clb : AtomId → Option Nat) (st : PbStatsGain) (blk : AtomId) : PbStatsGain :=
  if atom_clb blk = none then
    match st.sharinggain blk with
    | none =>
        { st with
          marked_blocks := st.marked_blocks ++ [blk]
          sharinggain := fun b => if b = blk then some 1 else st.sharinggain b
          hillgain := fun b =>
            if b = blk then some (1 - (num_ext_inputs_atom_block blk : ℚ))
            else st.hillgain b }
    | some s =>
        { st with
          sharinggain := fun b => if b = blk then some (s + 1) else st.sharinggain b
          hillgain := fun b =>
            if b = blk then some ((st.hillgain blk).getD 0 + 1) else st.hillgain b }
  else st

/-- First-touch marking of a net in one pb (cluster.cpp lines 1684-1686). -/
def mark_net_first_touch (net : NetId) (pb : PbStatsGain) : PbStatsGain :=
  if pb.num_pins_of_net_in_pb net = 0 then
    { pb with marked_nets := pb.marked_nets ++ [net] } else pb

/-- The pin blocks the sharing-gain loop iterates over (cluster.cpp lines
1695-1699): the sinks only when the net output feeds its own driving block,
else all pins. -/
def pins_walked (info : AtomNet) : List AtomId :=
  if info.outputFeedsDriver then info.sinkBlocks else info.pinBlocks

/-- The `gain_flag == GAIN` part of the walk body (cluster.cpp lines
1690-1729): sharing/hill gains over the net's pins on first touch, then the
connection-driven and timing-driven updates. -/
def mark_net_gain_update
    (upd_conn upd_timing : (AtomId → Option ℚ) → AtomId → Option ℚ)
    (timing_driven connection_driven : Bool)
    (num_ext_inputs_atom_block : AtomId → ℤ) (atom_clb : AtomId → Option Nat)
    (net : NetId) (info : AtomNet) (pb1 : PbStatsGain) : PbStatsGain :=
  let pbS := if pb1.num_pins_of_net_in_pb net = 0 then
      (pins_walked info).foldl (mark_block_share_gain num_ext_inputs_atom_block atom_clb) pb1
    else pb1
  let pbC := if connection_driven then
      { pbS with connectiongain := upd_conn pbS.connectiongain } else pbS
  if timing_driven then { pbC with timinggain := upd_timing pbC.timinggain } else pbC

/-- The increment of `num_pins_of_net_in_pb[net]` (cluster.cpp lines
1730-1733). -/
def bump_num_pins (net : NetId) (pb2 : PbStatsGain) : PbStatsGain :=
  { pb2 with num_pins_of_net_in_pb := fun n =>
      if n = net then pb2.num_pins_of_net_in_pb n + 1 else pb2.num_pins_of_net_in_pb n }

/-- The per-pb body of the marking walk (the `while (cur_pb)` loop body,
cluster.cpp lines 1681-1734): mark the net on first touch, update sharing,
connection and timing gains if `gain_flag == GAIN`, then increment
`num_pins_of_net_in_pb[net]`. -/
def mark_net_in_pb (gain_flag : Bool)
    (upd_conn upd_timing : (AtomId → Option ℚ) → AtomId → Option ℚ)
    (timing_driven connection_driven : Bool)
    (num_ext_inputs_atom_block : AtomId → ℤ) (atom_clb : AtomId → Option Nat)
    (net : NetId) (info : AtomNet) (pb : PbStatsGain) : PbStatsGain :=
  let pb1 := mark_net_first_touch net pb
  let pb2 := if gain_flag then
      mark_net_gain_update upd_conn upd_timing timing_driven connection_driven
        num_ext_inputs_atom_block atom_clb net info pb1
    else pb1
  bump_num_pins net pb2

/-- The high-fanout branch's store at the cluster root (cluster.cpp lines
1673-1676): the net is stored only when no net is stored yet or when it has
strictly fewer sinks than the stored one. -/
def update_root_tie_break (net_sinks : NetId → Nat) (net : NetId)
    (root : PbStatsGain) : PbStatsGain :=
  match root.tie_break_high_fanout_net with
  | none => { root with tie_break_high_fanout_net := some net }
  | some stored =>
      if net_sinks net < net_sinks stored then
        { root with tie_break_high_fanout_net := some net }
      else root

/-- `mark_and_update_partial_gain` (cluster.cpp lines 1644-1736): a net with
more than `AAPACK_MAX_NET_SINKS_IGNORE = 256` sinks is not walked; if it is
non-global the cluster root's `tie_break_high_fanout_net` is (conditionally)
updated.  Otherwise every pb from the atom's parent to the root is walked. -/
def mark_and_update_partial_gain (gain_flag : Bool)
    (upd_conn upd_timing : (AtomId → Option ℚ) → AtomId → Option ℚ)
    (timing_driven connection_driven : Bool)
    (num_ext_inputs_atom_block : AtomId → ℤ) (atom_clb : AtomId → Option Nat)
    (nets : NetId → AtomNet) (net : NetId)
    (chain : List PbStatsGain) : List PbStatsGain :=
  if 256 < (nets net).sinkBlocks.length then
    if (nets net).isGlobal then chain
    else
      match chain.getLast? with
      | none => chain
      | some root =>
          chain.dropLast ++
            [update_root_tie_break (fun n => (nets n).sinkBlocks.length) net root]
  else
    chain.map (mark_net_in_pb gain_flag upd_conn upd_timing timing_driven
      connection_driven num_ext_inputs_atom_block atom_clb net (nets net))

/-- Projection of all `PbStatsGain` fields except
`tie_break_high_fanout_net`; used to state that the high-fanout branch does
not touch any gain or marking structure. -/
def gain_fields (pb : PbStatsGain) :=
  (pb.marked_nets, pb.num_pins_of_net_in_pb, pb.marked_blocks, pb.sharinggain,
   pb.hillgain, pb.connectiongain, pb.timinggain)

/-! ## Blended total gain: update_total_gain (cluster.cpp lines 1739-1788).

The `std::map<AtomBlockId, float>` gain maps are modelled as
`Option ℚ`-valued functions (`none` = no entry); reads through `operator[]`
on a possibly absent entry default-construct 0, modelled by `Option.getD 0`.
The `gain` map itself is only ever read back through `operator[]`, so it is
modelled as a total function with default 0.  `num_used_pins` is the number
of connected input plus output pins of a block
(`block_input_pins(b).size() + block_output_pins(b).size()`). -/

/-- The fields of `t_pb_stats` used by `update_total_gain`. -/
structure PbTotalGain where
  marked_blocks : List AtomId
  sharinggain : AtomId → Option ℚ
  connectiongain : AtomId → Option ℚ
  timinggain : AtomId → Option ℚ
  gain : AtomId → ℚ

/-- The loop body of `update_total_gain` for one marked block (cluster.cpp
lines 1748-1785): materialise absent `connectiongain`/`sharinggain` entries
as 0, compute the area cost (connection-driven blend or plain sharing gain,
divided by the used pin count), then blend in the timing term when
timing-driven. -/
def update_block_total_gain (alpha beta : ℚ) (timing_driven connection_driven : Bool)
    (num_used_pins : AtomId → Nat) (pb : PbTotalGain) (blk : AtomId) : PbTotalGain :=
  let cg : AtomId → Option ℚ := fun b =>
    if b = blk then some ((pb.connectiongain blk).getD 0) else pb.connectiongain b
  let sg : AtomId → Option ℚ := fun b =>
    if b = blk then some ((pb.sharinggain blk).getD 0) else pb.sharinggain b
  let base : ℚ := if connection_driven then
      ((1 - beta) * (sg blk).getD 0 + beta * (cg blk).getD 0) / (num_used_pins blk : ℚ)
    else (sg blk).getD 0 / (num_used_pins blk : ℚ)
  let total : ℚ := if timing_driven then
      alpha * (pb.timinggain blk).getD 0 + (1 - alpha) * base
    else base
  { pb with
    connectiongain := cg
    sharinggain := sg
    gain := fun b => if b = blk then total else pb.gain b }

/-- `update_total_gain` restricted to one pb of the walk (the body of the
`while (cur_pb)` loop, cluster.cpp lines 1746-1786): update every marked
block in order. -/
def update_total_gain_pb (alpha beta : ℚ) (timing_driven connection_driven : Bool)
    (num_used_pins : AtomId → Nat) (pb : PbTotalGain) : PbTotalGain :=
  pb.marked_blocks.foldl
    (update_block_total_gain alpha beta timing_driven connection_driven num_used_pins) pb

/-- `update_total_gain` (cluster.cpp lines 1739-1788): walk from the given
pb up to the cluster root, updating each pb independently; the chain is a
list of per-pb records. -/
def update_total_gain (alpha beta : ℚ) (timing_driven connection_driven : Bool)
    (num_used_pins : AtomId → Nat) (chain : List PbTotalGain) : List PbTotalGain :=
  chain.map (update_total_gain_pb alpha beta timing_driven connection_driven num_used_pins)

/-- The blended-gain formula as the specification states it:
`gain = α·timinggain + (1−α)·((1−β)·sharinggain + β·connectiongain) / used_pins`,
with the timing term included only when timing-driven mode is enabled and
the connection term only when connection-driven mode is enabled. -/
def spec_blended_gain (alpha beta : ℚ) (timing_driven connection_driven : Bool)
    (t s c : ℚ) (used_pins : Nat) : ℚ :=
  let inner := if connection_driven then ((1 - beta) * s + beta * c) / (used_pins : ℚ)
    else s / (used_pins : ℚ)
  if timing_driven then alpha * t + (1 - alpha) * inner else inner

/-! ## BLEND seed scoring (do_clustering, cluster.cpp lines 471-516) and the
seed consumption order (get_highest_gain_seed_molecule, lines 2333-2371).

For each atom the source folds over its molecules keeping the maximum blend
gain, starting from 0.  Both `inputs_of_molecule` and `max_molecule_inputs`
are C `int`s, so `inputs_of_molecule / max_molecule_inputs` is integer
division.  `std::sort` with comparator `seed_blend_gain[lhs] >
seed_blend_gain[rhs]` is modelled as an insertion sort with the same
comparator; the seed selector then walks the sorted array skipping already
clustered atoms. -/

/-- The per-molecule data read by the seed scoring loop. -/
structure SeedMolecule where
  num_ext_inputs : Nat
  num_blocks : Nat

/-- One molecule's blend gain as the source computes it (cluster.cpp lines
489-491): `seed_blend_fac = 0.5`, and the input ratio
`inputs_of_molecule / max_molecule_inputs` is C integer division. -/
def molecule_blend_gain (crit : ℚ) (max_molecule_inputs : Nat) (m : SeedMolecule) : ℚ :=
  (1/2 * crit + (1 - 1/2) * ((m.num_ext_inputs / max_molecule_inputs : Nat) : ℚ))
    * (1 + (1/5) * ((m.num_blocks : ℚ) - 1))

/-- The atom's seed score: maximum blend gain over its molecules, folded
from 0 (cluster.cpp lines 475-497). -/
def seed_blend_gain (crit : ℚ) (max_molecule_inputs : Nat)
    (mols : List SeedMolecule) : ℚ :=
  mols.foldl (fun acc m =>
    let bg := molecule_blend_gain crit max_molecule_inputs m
    if acc < bg then bg else acc) 0

/-- One molecule's blend gain as the claim states it, with a real-valued
input ratio `num_ext_inputs(m) / max_inputs`. -/
def spec_molecule_blend_gain_real (crit : ℚ) (max_molecule_inputs : Nat)
    (m : SeedMolecule) : ℚ :=
  (1/2 * crit + (1 - 1/2) * ((m.num_ext_inputs : ℚ) / (max_molecule_inputs : ℚ)))
    * (1 + (1/5) * ((m.num_blocks : ℚ) - 1))

/-- The claim's seed score with the real-valued ratio. -/
def spec_seed_blend_gain_real (crit : ℚ) (max_molecule_inputs : Nat)
    (mols : List SeedMolecule) : ℚ :=
  mols.foldl (fun acc m =>
    let bg := spec_molecule_blend_gain_real crit max_molecule_inputs m
    if acc < bg then bg else acc) 0

/-- Descending insertion of one atom into the seed ordering. -/
def seed_sort_ins (score : AtomId → ℚ) (x : AtomId) : List AtomId → List AtomId
  | [] => [x]
  | y :: ys => if score y < score x then x :: y :: ys else y :: seed_sort_ins score x ys

/-- The seed ordering: sort atoms by descending score
(`std::sort` with comparator `score lhs > score rhs`, cluster.cpp lines
507-512). -/
def seed_sort_desc (score : AtomId → ℚ) : List AtomId → List AtomId
  | [] => []
  | x :: xs => seed_sort_ins score x (seed_sort_desc score xs)

/-- The seed selector's index advance (get_highest_gain_seed_molecule,
cluster.cpp lines 2344-2366): skip atoms that are already clustered and
return the first unclustered one together with the remaining suffix. -/
def next_seed (atom_clb : AtomId → Option Nat) :
    List AtomId → Option (AtomId × List AtomId)
  | [] => none
  | a :: rest => if atom_clb a = none then some (a, rest) else next_seed atom_clb rest

/-! ## Chain-root placement: try_place_atom_block_rec, primitive case
(cluster.cpp lines 1355-1466).

The recursion on the parent pb-graph node always succeeds (non-primitive
levels never fail); what decides placement is the primitive-level pair of
checks at lines 1430-1462.  `primitive_feasible` is abstracted as a boolean
input; the chain-root data is the target pb-graph node, the
`chain_root_pin`'s parent node, whether the atom has the port driving the
chain root pin (`find_port`), and the net on that pin
(`port_net(port_id, chain_root_pin->pin_number)`). -/

abbrev PbNodeId := Nat

/-- `e_block_pack_status` (the values `try_place_atom_block_rec` can
produce). -/
inductive BlockPackStatus where
  | PASSED
  | FAILED_FEASIBLE
  | FAILED_ROUTE
  | STATUS_UNDEFINED
deriving DecidableEq

/-- The inputs of the chain-root check (cluster.cpp lines 1447-1462). -/
structure ChainRootCheck where
  pb_graph_node : PbNodeId
  chain_root_parent_node : PbNodeId
  port_found : Bool
  chain_net : Option NetId

/-- The primitive-level placement checks of `try_place_atom_block_rec`
(cluster.cpp lines 1430-1462): first `primitive_feasible`, then — only for
the root of a chain, when the port driving the chain root pin exists and is
connected to an atom net — the target pb-graph node must equal the
`chain_root_pin`'s parent node, else `FAILED_FEASIBLE`. -/
def try_place_atom_block_prim (primitive_feasible : Bool) (is_root_of_chain : Bool)
    (chk : ChainRootCheck) : BlockPackStatus :=
  let st1 := if primitive_feasible then BlockPackStatus.PASSED
    else BlockPackStatus.FAILED_FEASIBLE
  if st1 = BlockPackStatus.PASSED ∧ is_root_of_chain = true then
    if chk.port_found then
      match chk.chain_net with
      | some _ =>
          if chk.pb_graph_node ≠ chk.chain_root_parent_node then
            BlockPackStatus.FAILED_FEASIBLE
          else st1
      | none => st1
    else st1
  else st1

/-! ## Per-cluster growth loop (do_clustering, cluster.cpp lines 563-650).

The loop body is abstracted over the cluster state type `σ`:
`gen` is `get_molecule_for_cluster`, `try_pack` is `try_pack_molecule`
(returning pass/fail and the possibly mutated state), `upd` is
`update_cluster_stats` together with the post-success bookkeeping.  The
loop condition is `next_molecule != NULL && prev_molecule != next_molecule`
(line 573) and each iteration sets `prev_molecule = next_molecule`
(line 580) before fetching the next candidate.  `fuel` bounds the number of
iterations we unfold; a `none` result means the loop was still running when
the fuel ran out. -/

def growth_loop {σ : Type} (gen : σ → Option MolId)
    (try_pack : σ → MolId → Bool × σ) (upd : σ → MolId → σ) :
    Nat → MolId → Option MolId → σ → Option σ
  | 0, _, _, _ => none
  | fuel+1, prev, next, s =>
    match next with
    | none => some s
    | some m =>
      if m = prev then some s
      else
        let r := try_pack s m
        let s2 := if r.1 then upd r.2 m else r.2
        growth_loop gen try_pack upd fuel m (gen s2) s2

/-! ## Placement file parsing: read_place (read_place.cpp lines 20-151).

Each input line is modelled as its whitespace token list (`vtr::split`
produces non-empty tokens).  The parser state is the two seen-header flags
and the accumulated block locations; errors thrown through `vpr_throw`
with `VPR_ERROR_PLACE_F` are modelled as `Except` errors.  `vtr::atoi` is
modelled on well-formed decimal tokens (the only ones `print_place`
emits). -/

/-- The distinct `vpr_throw` sites of `read_place`. -/
inductive PlaceFileError where
  | duplicateNetlistId
  | netlistMismatch
  | duplicateGridDim
  | gridMismatch
  | missingGridDim
  | unknownBlock
  | invalidLine
deriving DecidableEq

/-- Accumulate leading decimal digits, stopping at the first non-digit
(C `atoi` semantics). -/
def atoi_digits : List Char → Nat → Nat
  | [], acc => acc
  | c :: cs, acc =>
      if c.isDigit then atoi_digits cs (acc * 10 + (c.toNat - '0'.toNat)) else acc

/-- Modelled from the spec: `vtr::atoi` (its implementation is not under
src/) with standard C `atoi` semantics — an optional leading minus sign
followed by leading decimal digits; this covers every token `print_place`
emits. -/
def place_atoi (s : String) : Int :=
  match s.data with
  | '-' :: cs => - (atoi_digits cs 0 : Int)
  | cs => (atoi_digits cs 0 : Int)

/-- The mutable state of the `read_place` parsing loop. -/
structure ReadPlaceState where
  seen_netlist_id : Bool
  seen_grid_dimensions : Bool
  block_locs : List (String × Int × Int × Int)
deriving DecidableEq

/-- One iteration of the `read_place` line loop (read_place.cpp lines
39-148): skip blank and commented lines; a provenance header
`Netlist_File: <f> Netlist_ID: <id>` is rejected when repeated and, when
`verify_file_digests`, on an id mismatch; an `Array size: <nx> x <ny> logic
blocks` header is rejected when repeated or when it differs from the
current device size; a 4-token (or 5-token with trailing comment) record
needs the grid header first and a block name present in the netlist, and
stores the coordinates unchecked; anything else is an invalid line. -/
def process_place_line (verify_file_digests : Bool) (netlist_id : String)
    (L_nx L_ny : Int) (block_list : List String)
    (st : ReadPlaceState) (tokens : List String) :
    Except PlaceFileError ReadPlaceState :=
  if tokens.isEmpty then .ok st
  else if (tokens.headD "").front = '#' then .ok st
  else if tokens.length = 4 ∧ tokens.headD "" = "Netlist_File:"
      ∧ tokens.getD 2 "" = "Netlist_ID:" then
    if st.seen_netlist_id then .error .duplicateNetlistId
    else if tokens.getD 3 "" ≠ netlist_id ∧ verify_file_digests = true then
      .error .netlistMismatch
    else .ok { st with seen_netlist_id := true }
  else if tokens.length = 7 ∧ tokens.headD "" = "Array" ∧ tokens.getD 1 "" = "size:"
      ∧ tokens.getD 3 "" = "x" ∧ tokens.getD 5 "" = "logic"
      ∧ tokens.getD 6 "" = "blocks" then
    if st.seen_grid_dimensions then .error .duplicateGridDim
    else if L_nx ≠ place_atoi (tokens.getD 2 "") ∨ L_ny ≠ place_atoi (tokens.getD 4 "")
      then .error .gridMismatch
    else .ok { st with seen_grid_dimensions := true }
  else if tokens.length = 4 ∨ (tokens.length = 5 ∧ (tokens.getD 4 "").front = '#') then
    if st.seen_grid_dimensions = false then .error .missingGridDim
    else if (tokens.headD "") ∉ block_list then .error .unknownBlock
    else .ok { st with block_locs := st.block_locs ++
      [(tokens.headD "", place_atoi (tokens.getD 1 ""), place_atoi (tokens.getD 2 ""),
        place_atoi (tokens.getD 3 ""))] }
  else .error .invalidLine

/-- `read_place` (read_place.cpp lines 20-151): fold the line parser over
the file, stopping at the first error. -/
def read_place (verify_file_digests : Bool) (netlist_id : String)
    (L_nx L_ny : Int) (block_list : List String)
    (lines : List (List String)) : Except PlaceFileError ReadPlaceState :=
  lines.foldlM (process_place_line verify_file_digests netlist_id L_nx L_ny block_list)
    ⟨false, false, []⟩

/-! ## Transactional packing: try_pack_molecule and its rollback
(cluster.cpp lines 1236-1349 and revert_place_atom_block, lines 1470-1516).

The packer state visible to the transaction is the atom-to-cluster map, the
atom-to-pb map, the intra-cluster router's target set and the molecule
`valid` flags.  A molecule is its list of (non-empty slot) atoms in slot
order (`mol_atoms`), and `atom_mols` is the `atom_molecules` multimap.
Each candidate placement returned by `get_next_primitive_list` is one
`PackAttempt`: the primitive assigned to each atom (`pb_of`), the
per-atom feasibility verdict of `try_place_atom_block_rec`
(`primitive_feasible` plus the chain-root check), and the verdict of the
post-placement checks (`check_lookahead_pins_used`, and
`try_intra_lb_route` in the per-atom routing stage). -/

abbrev PbId := Nat

/-- The packer state mutated by `try_pack_molecule`. -/
structure PackerState where
  atom_clb : AtomId → Option Nat
  atom_pb : AtomId → Option PbId
  router_targets : List AtomId
  mol_valid : MolId → Bool

/-- One candidate placement of the molecule. -/
structure PackAttempt where
  pb_of : AtomId → PbId
  feas : AtomId → Bool
  post_ok : Bool

/-- The primitive-level state effects of `try_place_atom_block_rec`
(cluster.cpp lines 1434-1441): record the atom's cluster and pb and add it
as a router target.  `add_atom_as_target` lives in the intra-cluster router
(not under src/); modelled from the spec as appending to the target set. -/
def place_atom (pb_of : AtomId → PbId) (clb_index : Nat) (st : PackerState)
    (a : AtomId) : PackerState :=
  { st with
    atom_clb := fun b => if b = a then some clb_index else st.atom_clb b
    atom_pb := fun b => if b = a then some (pb_of a) else st.atom_pb b
    router_targets := st.router_targets ++ [a] }

/-- The placement loop of `try_pack_molecule` (cluster.cpp lines
1264-1281): place the molecule's atoms in slot order until one fails its
feasibility checks; the returned list is the placed prefix (including the
failing atom, which was already mapped and targeted before its checks ran),
matching `failed_location`. -/
def place_molecule_atoms (pb_of : AtomId → PbId) (clb_index : Nat)
    (feas : AtomId → Bool) :
    List AtomId → PackerState → PackerState × List AtomId × Bool
  | [], st => (st, [], true)
  | a :: rest, st =>
    let st1 := place_atom pb_of clb_index st a
    if feas a then
      let r := place_molecule_atoms pb_of clb_index feas rest st1
      (r.1, a :: r.2.1, r.2.2)
    else (st1, [a], false)

/-- Modelled from the spec: `revalid_molecules` (its implementation,
vpr_utils.cpp, is not under src/) — on rollback, "recursively walks atoms
under a pb and re-validates molecules whose atoms are again free": every
molecule of the reverted atom all of whose atoms are unclustered gets
`valid = true`. -/
def revalid_molecules_of_atom (mol_atoms : MolId → List AtomId)
    (atom_mols : AtomId → List MolId) (a : AtomId) (st : PackerState) : PackerState :=
  { st with mol_valid := fun m =>
      if m ∈ atom_mols a ∧ (mol_atoms m).all (fun b => (st.atom_clb b).isNone) = true
      then true else st.mol_valid m }

/-- `revert_place_atom_block` (cluster.cpp lines 1470-1516): clear the
atom's cluster and pb mapping, then re-validate its molecules (and free the
pbs allocated only for this attempt, represented here by the cleared
`atom_pb` entry). -/
def revert_place_atom_block (mol_atoms : MolId → List AtomId)
    (atom_mols : AtomId → List MolId) (a : AtomId) (st : PackerState) : PackerState :=
  let st1 := { st with
    atom_clb := fun b => if b = a then none else st.atom_clb b
    atom_pb := fun b => if b = a then none else st.atom_pb b }
  revalid_molecules_of_atom mol_atoms atom_mols a st1

/-- Modelled from the spec: `remove_atom_from_target` (intra-cluster
router, not under src/) — remove the atom from the router's target set. -/
def remove_atom_from_target (st : PackerState) (a : AtomId) : PackerState :=
  { st with router_targets := st.router_targets.erase a }

/-- The failure path of `try_pack_molecule` (cluster.cpp lines 1328-1342):
first remove every placed atom from the router target set (first loop),
then call `revert_place_atom_block` on each (second loop) — both loops run
over `i = 0 .. failed_location-1` in forward placement order.  The second
component records the order in which the reverts are invoked. -/
def rollback_failed_attempt (mol_atoms : MolId → List AtomId)
    (atom_mols : AtomId → List MolId) (placed : List AtomId) (st : PackerState) :
    PackerState × List AtomId :=
  let st1 := placed.foldl remove_atom_from_target st
  placed.foldl (fun p a =>
    (revert_place_atom_block mol_atoms atom_mols a p.1, p.2 ++ [a])) (st1, [])

/-- The commit path of `try_pack_molecule` (cluster.cpp lines 1313-1325):
invalidate every molecule sharing an atom with the committed molecule. -/
def commit_molecule (atom_mols : AtomId → List MolId) (placed : List AtomId)
    (st : PackerState) : PackerState :=
  placed.foldl (fun s a =>
    { s with mol_valid := fun m => if m ∈ atom_mols a then false else s.mol_valid m }) st

/-- `try_pack_molecule` (cluster.cpp lines 1236-1349): run the candidate
placements produced by `get_next_primitive_list` in order; a fully placed
attempt that passes the post checks commits, any failed attempt is rolled
back and the next candidate tried; when no candidate remains the result is
`FAILED_FEASIBLE`. -/
def try_pack_molecule (mol_atoms : MolId → List AtomId)
    (atom_mols : AtomId → List MolId) (clb_index : Nat) (mol : MolId) :
    List PackAttempt → PackerState → BlockPackStatus × PackerState
  | [], st => (BlockPackStatus.FAILED_FEASIBLE, st)
  | att :: rest, st =>
    let r := place_molecule_atoms att.pb_of clb_index att.feas (mol_atoms mol) st
    if r.2.2 && att.post_ok then
      (BlockPackStatus.PASSED, commit_molecule atom_mols r.2.1 r.1)
    else
      try_pack_molecule mol_atoms atom_mols clb_index mol rest
        (rollback_failed_attempt mol_atoms atom_mols r.2.1 r.1).1

/-! ## Post-clustering verification: check_clustering (cluster.cpp lines
2228-2331), called by do_clustering (line 717) before any output is
written; every failed check raises a `VPR_ERROR_PACK` through `vpr_throw`.

The final clustering is modelled as finite maps over atom and pb ids:
`atom_pb`/`pb_atom` are the two directions of the atom-pb lookup,
`atom_clb` the atom-to-cluster map, `pb_parent` the `parent_pb`
back-references, `clb_root i` the root pb `clb[i].pb`, and `all_pbs` the
(finite) pb arena of the final clusters.  The downward `child_pbs` walk of
`check_cluster_atom_blocks` is modelled through the `parent_pb` chain: the
source sets `child_pbs` and `parent_pb` in lockstep (cluster.cpp lines
1397-1407), so a pb belongs to cluster i's tree exactly when its parent
chain ends at `clb[i].pb`.  The parent walk gets `all_pbs.length + 1` fuel;
a chain that does not reach a root within that bound (impossible for the
tree-shaped states the packer builds, where the C loop terminates) makes
the check fail. -/

/-- The final clustering state read by `check_clustering`. -/
structure ClusteringResult where
  atoms : List AtomId
  num_clb : Nat
  clb_root : Nat → PbId
  atom_pb : AtomId → Option PbId
  pb_atom : PbId → Option AtomId
  atom_clb : AtomId → Option Nat
  pb_parent : PbId → Option PbId
  all_pbs : List PbId

/-- Follow `parent_pb` links upward (the `while (cur_pb->parent_pb)` loop,
cluster.cpp lines 2259-2263), with fuel. -/
def root_of (pb_parent : PbId → Option PbId) : Nat → PbId → Option PbId
  | 0, _ => none
  | fuel + 1, p =>
    match pb_parent p with
    | none => some p
    | some q => root_of pb_parent fuel q

/-- The per-atom checks of `check_clustering` (cluster.cpp lines
2239-2277): the atom maps to a pb, the reverse mapping returns the same
atom, the atom maps to a cluster, and the pb's parent chain ends at that
cluster's root pb. -/
def check_atom (res : ClusteringResult) (a : AtomId) : Bool :=
  match res.atom_pb a with
  | none => false
  | some p =>
    decide (res.pb_atom p = some a)
    && match res.atom_clb a with
       | none => false
       | some c =>
         decide (c < res.num_clb)
         && decide (root_of res.pb_parent (res.all_pbs.length + 1) p
              = some (res.clb_root c))

/-- The atoms contained in cluster `i`'s pb tree: atoms of pbs whose parent
chain ends at `clb[i].pb` (the primitives visited by
`check_cluster_atom_blocks` on cluster i). -/
def cluster_atoms (res : ClusteringResult) (i : Nat) : List AtomId :=
  res.all_pbs.filterMap (fun p =>
    if root_of res.pb_parent (res.all_pbs.length + 1) p = some (res.clb_root i)
    then res.pb_atom p else none)

/-- The pb-to-atom linkback check of `check_cluster_atom_blocks`
(cluster.cpp lines 2311-2315): a pb that holds an atom must be that atom's
`atom_pb`. -/
def check_pb_links (res : ClusteringResult) : Bool :=
  res.all_pbs.all (fun p =>
    match res.pb_atom p with
    | none => true
    | some a => decide (res.atom_pb a = some p))

/-- `check_clustering` (cluster.cpp lines 2228-2291): the per-atom checks,
the pb linkback check, the duplicate-containment check via
`blocks_checked` (no atom is collected twice across the cluster walks,
lines 2303-2309), and the coverage check (every atom found in some
cluster, lines 2284-2290).  Returns false exactly when the source throws. -/
def check_clustering (res : ClusteringResult) : Bool :=
  res.atoms.all (check_atom res)
  && check_pb_links res
  && decide ((List.range res.num_clb).flatMap (cluster_atoms res)).Nodup
  && res.atoms.all (fun a =>
      decide (a ∈ (List.range res.num_clb).flatMap (cluster_atoms res)))

/-- A small clustering that passes `check_clustering`: one atom 0 on
primitive pb 3 whose parent is the root pb 10 of cluster 0. -/
def check_clustering_example : ClusteringResult :=
  { atoms := [0]
    num_clb := 1
    clb_root := fun _ => 10
    atom_pb := fun a => if a = 0 then some 3 else none
    pb_atom := fun p => if p = 3 then some 0 else none
    atom_clb := fun a => if a = 0 then some 0 else none
    pb_parent := fun p => if p = 3 then some 10 else none
    all_pbs := [3, 10] }

/-! ## Theorems -/

theorem add_molecule_eq_of_mem (g : MolId → ℚ) (mol : MolId) (n : Nat) (q : List MolId)
    (hmem : mol ∈ q) : add_molecule_to_pb_stats_candidates g mol n q = q := by
  unfold add_molecule_to_pb_stats_candidates
  rw [if_pos hmem]

theorem add_molecule_eq_full (g : MolId → ℚ) (mol x : MolId) (n : Nat) (xs : List MolId)
    (hmem : mol ∉ x :: xs) (hfull : n - 1 ≤ (x :: xs).length) :
    add_molecule_to_pb_stats_candidates g mol n (x :: xs) =
      if g x < g mol then evict_insert g mol xs else x :: xs := by
  unfold add_molecule_to_pb_stats_candidates
  rw [if_neg hmem, if_pos hfull]

theorem add_molecule_eq_full_nil (g : MolId → ℚ) (mol : MolId) (n : Nat)
    (hfull : n - 1 ≤ ([] : List MolId).length) :
    add_molecule_to_pb_stats_candidates g mol n [] = [] := by
  unfold add_molecule_to_pb_stats_candidates
  rw [if_neg (List.not_mem_nil mol), if_pos hfull]

theorem add_molecule_eq_grow (g : MolId → ℚ) (mol : MolId) (n : Nat) (q : List MolId)
    (hmem : mol ∉ q) (hroom : ¬ (n - 1 ≤ q.length)) :
    add_molecule_to_pb_stats_candidates g mol n q = grow_insert g mol q := by
  unfold add_molecule_to_pb_stats_candidates
  rw [if_neg hmem, if_neg hroom]

theorem evict_insert_perm (g : MolId → ℚ) (mol : MolId) (l : List MolId) :
    (evict_insert g mol l).Perm (mol :: l) := by
  induction l with
  | nil => simp [evict_insert]
  | cons x xs ih =>
    simp only [evict_insert]
    split
    · exact List.Perm.refl _
    · exact (List.Perm.cons x ih).trans (List.Perm.swap _ _ _)

theorem grow_insert_rev_perm (g : MolId → ℚ) (mol : MolId) (l : List MolId) :
    (grow_insert_rev g mol l).Perm (mol :: l) := by
  induction l with
  | nil => simp [grow_insert_rev]
  | cons x xs ih =>
    simp only [grow_insert_rev]
    split
    · exact (List.Perm.cons x ih).trans (List.Perm.swap _ _ _)
    · exact List.Perm.refl _

theorem grow_insert_perm (g : MolId → ℚ) (mol : MolId) (q : List MolId) :
    (grow_insert g mol q).Perm (mol :: q) := by
  unfold grow_insert
  exact (List.reverse_perm _).trans ((grow_insert_rev_perm g mol q.reverse).trans
    (List.Perm.cons mol (List.reverse_perm q)))

theorem evict_insert_pairwise (g : MolId → ℚ) (mol : MolId) (l : List MolId)
    (h : l.Pairwise (fun a b => g a ≤ g b)) :
    (evict_insert g mol l).Pairwise (fun a b => g a ≤ g b) := by
  induction l with
  | nil => simp [evict_insert]
  | cons x xs ih =>
    rcases List.pairwise_cons.mp h with ⟨hx, hxs⟩
    simp only [evict_insert]
    split
    · rename_i hle
      refine List.pairwise_cons.mpr ⟨?_, h⟩
      intro b hb
      rcases List.mem_cons.mp hb with rfl | hb
      · exact hle
      · exact le_trans hle (hx b hb)
    · rename_i hgt
      push_neg at hgt
      refine List.pairwise_cons.mpr ⟨?_, ih hxs⟩
      intro b hb
      rw [(evict_insert_perm g mol xs).mem_iff] at hb
      rcases List.mem_cons.mp hb with rfl | hb
      · exact le_of_lt hgt
      · exact hx b hb

theorem grow_insert_rev_pairwise (g : MolId → ℚ) (mol : MolId) (l : List MolId)
    (h : l.Pairwise (fun a b => g b ≤ g a)) :
    (grow_insert_rev g mol l).Pairwise (fun a b => g b ≤ g a) := by
  induction l with
  | nil => simp [grow_insert_rev]
  | cons x xs ih =>
    rcases List.pairwise_cons.mp h with ⟨hx, hxs⟩
    simp only [grow_insert_rev]
    split
    · rename_i hlt
      refine List.pairwise_cons.mpr ⟨?_, ih hxs⟩
      intro b hb
      rw [(grow_insert_rev_perm g mol xs).mem_iff] at hb
      rcases List.mem_cons.mp hb with rfl | hb
      · exact le_of_lt hlt
      · exact hx b hb
    · rename_i hge
      push_neg at hge
      refine List.pairwise_cons.mpr ⟨?_, h⟩
      intro b hb
      rcases List.mem_cons.mp hb with rfl | hb
      · exact hge
      · exact le_trans (hx b hb) hge

theorem grow_insert_pairwise (g : MolId → ℚ) (mol : MolId) (q : List MolId)
    (h : q.Pairwise (fun a b => g a ≤ g b)) :
    (grow_insert g mol q).Pairwise (fun a b => g a ≤ g b) := by
  unfold grow_insert
  rw [List.pairwise_reverse]
  exact grow_insert_rev_pairwise g mol q.reverse (List.pairwise_reverse.mpr h)

/-- Claim C3 (amended): with `max_queue_size = 30` the queue stays sorted in
ascending gain order; a molecule not yet present is accepted outright while
the array holds fewer than 29 = `max_queue_size - 1` candidates; once it
holds 29 or more the size stays fixed (the minimum-gain incumbent is evicted
instead), and in that regime an insertion whose gain ties or is below the
lowest-gain incumbent leaves the queue unchanged. -/
theorem c3_candidate_queue (g : MolId → ℚ) (mol : MolId) (q : List MolId)
    (hs : q.Pairwise (fun a b => g a ≤ g b)) (hm : mol ∉ q) :
    ((add_molecule_to_pb_stats_candidates g mol 30 q).Pairwise (fun a b => g a ≤ g b))
    ∧ (q.length < 29 →
        (add_molecule_to_pb_stats_candidates g mol 30 q).length = q.length + 1
        ∧ mol ∈ add_molecule_to_pb_stats_candidates g mol 30 q)
    ∧ (29 ≤ q.length →
        (add_molecule_to_pb_stats_candidates g mol 30 q).length = q.length)
    ∧ (∀ x xs, q = x :: xs → 29 ≤ q.length → g mol ≤ g x →
        add_molecule_to_pb_stats_candidates g mol 30 q = q) := by
  by_cases hfull : 30 - 1 ≤ q.length
  · cases q with
    | nil => simp at hfull
    | cons x xs =>
      rw [add_molecule_eq_full g mol x 30 xs hm hfull]
      rcases List.pairwise_cons.mp hs with ⟨hx, hxs⟩
      refine ⟨?_, ?_, ?_, ?_⟩
      · split
        · exact evict_insert_pairwise g mol xs hxs
        · exact hs
      · intro hlt
        simp at hfull hlt
        omega
      · intro _
        split
        · simpa using (evict_insert_perm g mol xs).length_eq
        · rfl
      · intro y ys hq _ hle
        injection hq with h1 h2
        subst h1; subst h2
        rw [if_neg (not_lt.mpr hle)]
  · rw [add_molecule_eq_grow g mol 30 q hm hfull]
    refine ⟨grow_insert_pairwise g mol q hs, ?_, ?_, ?_⟩
    · intro _
      refine ⟨by simpa using (grow_insert_perm g mol q).length_eq, ?_⟩
      exact (grow_insert_perm g mol q).mem_iff.mpr (List.mem_cons_self mol q)
    · intro hge
      exact absurd hge (by simp at hfull ⊢; omega)
    · intro y ys hq hge _
      exact absurd hge (by simp at hfull ⊢; omega)

theorem c3_candidate_queue_witness :
    (add_molecule_to_pb_stats_candidates (fun i => (i : ℚ)) 3 30 [0, 1]).length = 3
    ∧ 3 ∈ add_molecule_to_pb_stats_candidates (fun i => (i : ℚ)) 3 30 [0, 1] := by
  have h := c3_candidate_queue (fun i => (i : ℚ)) 3 [0, 1] (by decide) (by decide)
  exact ⟨by simpa using (h.2.1 (by decide)).1, (h.2.1 (by decide)).2⟩

/-- Claim C3, counterexample to the claim as stated: the claim says every
newly offered molecule is accepted until the array holds 30 candidates.  In
the code the eviction regime already starts at
`num_feasible_blocks >= max_queue_size - 1 = 29`: offering a fresh
highest-gain molecule to a queue of 29 leaves the size at 29 and evicts the
minimum, so the array never reaches 30. -/
theorem c3_counterexample :
    (add_molecule_to_pb_stats_candidates (fun i => (i : ℚ)) 100 30 (List.range 29)).length = 29
    ∧ 0 ∉ add_molecule_to_pb_stats_candidates (fun i => (i : ℚ)) 100 30 (List.range 29) := by
  decide

/-- Claim C9: candidate insertion is idempotent (a molecule already present
in `feasible_blocks` is detected by the scan in lines 806-810 and the call
returns without touching the queue) and it never introduces duplicates. -/
theorem c9_candidate_insertion_idempotent (g : MolId → ℚ) (mol : MolId)
    (max_queue_size : Nat) (q : List MolId) :
    (mol ∈ q → add_molecule_to_pb_stats_candidates g mol max_queue_size q = q)
    ∧ (q.Nodup → (add_molecule_to_pb_stats_candidates g mol max_queue_size q).Nodup) := by
  constructor
  · intro hmem
    exact add_molecule_eq_of_mem g mol max_queue_size q hmem
  · intro hnd
    by_cases hmem : mol ∈ q
    · rwa [add_molecule_eq_of_mem g mol max_queue_size q hmem]
    · by_cases hfull : max_queue_size - 1 ≤ q.length
      · cases q with
        | nil =>
          rw [add_molecule_eq_full_nil g mol max_queue_size hfull]
          exact List.nodup_nil
        | cons x xs =>
          rw [add_molecule_eq_full g mol x max_queue_size xs hmem hfull]
          rcases List.nodup_cons.mp hnd with ⟨hxx, hxs⟩
          split
          · refine (evict_insert_perm g mol xs).nodup_iff.mpr ?_
            exact List.nodup_cons.mpr ⟨fun h => hmem (List.mem_cons_of_mem x h), hxs⟩
          · exact hnd
      · rw [add_molecule_eq_grow g mol max_queue_size q hmem hfull]
        exact (grow_insert_perm g mol q).nodup_iff.mpr (List.nodup_cons.mpr ⟨hmem, hnd⟩)

theorem c9_candidate_insertion_idempotent_witness :
    add_molecule_to_pb_stats_candidates (fun i => (i : ℚ)) 1 30 [0, 1, 2] = [0, 1, 2]
    ∧ (add_molecule_to_pb_stats_candidates (fun i => (i : ℚ)) 1 30 [0, 1, 2]).Nodup := by
  have h := c9_candidate_insertion_idempotent (fun i => (i : ℚ)) 1 30 [0, 1, 2]
  exact ⟨h.1 (by decide), h.2 (by decide)⟩

theorem mark_block_share_gain_preserved (ne : AtomId → ℤ) (clb : AtomId → Option Nat)
    (st : PbStatsGain) (b : AtomId) :
    (mark_block_share_gain ne clb st b).marked_nets = st.marked_nets
    ∧ (mark_block_share_gain ne clb st b).num_pins_of_net_in_pb = st.num_pins_of_net_in_pb
    ∧ (mark_block_share_gain ne clb st b).tie_break_high_fanout_net
        = st.tie_break_high_fanout_net := by
  unfold mark_block_share_gain
  split
  · split <;> exact ⟨rfl, rfl, rfl⟩
  · exact ⟨rfl, rfl, rfl⟩

theorem foldl_share_gain_preserved (ne : AtomId → ℤ) (clb : AtomId → Option Nat)
    (l : List AtomId) (st : PbStatsGain) :
    (l.foldl (mark_block_share_gain ne clb) st).marked_nets = st.marked_nets
    ∧ (l.foldl (mark_block_share_gain ne clb) st).num_pins_of_net_in_pb
        = st.num_pins_of_net_in_pb
    ∧ (l.foldl (mark_block_share_gain ne clb) st).tie_break_high_fanout_net
        = st.tie_break_high_fanout_net := by
  induction l generalizing st with
  | nil => exact ⟨rfl, rfl, rfl⟩
  | cons x xs ih =>
    simp only [List.foldl_cons]
    have h := mark_block_share_gain_preserved ne clb st x
    have h2 := ih (mark_block_share_gain ne clb st x)
    exact ⟨h2.1.trans h.1, h2.2.1.trans h.2.1, h2.2.2.trans h.2.2⟩

theorem mark_block_share_gain_other (ne : AtomId → ℤ) (clb : AtomId → Option Nat)
    (st : PbStatsGain) (b blk : AtomId) (hne : b ≠ blk) :
    (mark_block_share_gain ne clb st b).sharinggain blk = st.sharinggain blk
    ∧ (mark_block_share_gain ne clb st b).hillgain blk = st.hillgain blk
    ∧ (blk ∈ st.marked_blocks → blk ∈ (mark_block_share_gain ne clb st b).marked_blocks) := by
  unfold mark_block_share_gain
  split
  · split
    · refine ⟨?_, ?_, ?_⟩ <;> simp [Ne.symm hne]
    · refine ⟨?_, ?_, ?_⟩ <;> simp [Ne.symm hne]
  · exact ⟨rfl, rfl, id⟩

theorem foldl_share_gain_other (ne : AtomId → ℤ) (clb : AtomId → Option Nat)
    (blk : AtomId) (l : List AtomId) (hnm : blk ∉ l) (st : PbStatsGain) :
    (l.foldl (mark_block_share_gain ne clb) st).sharinggain blk = st.sharinggain blk
    ∧ (l.foldl (mark_block_share_gain ne clb) st).hillgain blk = st.hillgain blk
    ∧ (blk ∈ st.marked_blocks → blk ∈ (l.foldl (mark_block_share_gain ne clb) st).marked_blocks) := by
  induction l generalizing st with
  | nil => exact ⟨rfl, rfl, id⟩
  | cons x xs ih =>
    have hx : x ≠ blk := by
      rintro rfl
      exact hnm (List.mem_cons_self x xs)
    have hxs : blk ∉ xs := fun h => hnm (List.mem_cons_of_mem x h)
    simp only [List.foldl_cons]
    have hstep := mark_block_share_gain_other ne clb st x blk hx
    have hrest := ih hxs (mark_block_share_gain ne clb st x)
    exact ⟨hrest.1.trans hstep.1, hrest.2.1.trans hstep.2.1,
      fun h => hrest.2.2 (hstep.2.2 h)⟩

theorem mark_block_share_gain_fresh (ne : AtomId → ℤ) (clb : AtomId → Option Nat)
    (st : PbStatsGain) (blk : AtomId) (hclb : clb blk = none)
    (hfresh : st.sharinggain blk = none) :
    (mark_block_share_gain ne clb st blk).sharinggain blk = some 1
    ∧ (mark_block_share_gain ne clb st blk).hillgain blk = some (1 - (ne blk : ℚ))
    ∧ blk ∈ (mark_block_share_gain ne clb st blk).marked_blocks := by
  unfold mark_block_share_gain
  rw [if_pos hclb, hfresh]
  exact ⟨by simp, by simp, by simp⟩

theorem foldl_share_gain_fresh (ne : AtomId → ℤ) (clb : AtomId → Option Nat)
    (blk : AtomId) (hclb : clb blk = none) :
    ∀ (l : List AtomId) (st : PbStatsGain), blk ∈ l → l.Nodup →
      st.sharinggain blk = none →
      (l.foldl (mark_block_share_gain ne clb) st).sharinggain blk = some 1
      ∧ (l.foldl (mark_block_share_gain ne clb) st).hillgain blk = some (1 - (ne blk : ℚ))
      ∧ blk ∈ (l.foldl (mark_block_share_gain ne clb) st).marked_blocks := by
  intro l
  induction l with
  | nil => intro st hmem _ _; cases hmem
  | cons x xs ih =>
    intro st hmem hnd hfresh
    rcases List.nodup_cons.mp hnd with ⟨hxnm, hxs⟩
    simp only [List.foldl_cons]
    rcases List.mem_cons.mp hmem with rfl | hmem'
    · have hstep := mark_block_share_gain_fresh ne clb st blk hclb hfresh
      have hrest := foldl_share_gain_other ne clb blk xs hxnm
        (mark_block_share_gain ne clb st blk)
      exact ⟨hrest.1.trans hstep.1, hrest.2.1.trans hstep.2.1, hrest.2.2 hstep.2.2⟩
    · have hx : x ≠ blk := by
        rintro rfl
        exact hxnm hmem'
      have hstep := mark_block_share_gain_other ne clb st x blk hx
      exact ih (mark_block_share_gain ne clb st x) hmem' hxs (hstep.1.trans hfresh)

theorem mark_net_first_touch_fields (net : NetId) (pb : PbStatsGain) :
    (mark_net_first_touch net pb).num_pins_of_net_in_pb = pb.num_pins_of_net_in_pb
    ∧ (mark_net_first_touch net pb).sharinggain = pb.sharinggain
    ∧ (mark_net_first_touch net pb).tie_break_high_fanout_net
        = pb.tie_break_high_fanout_net
    ∧ (pb.num_pins_of_net_in_pb net = 0 → net ∈ (mark_net_first_touch net pb).marked_nets) := by
  unfold mark_net_first_touch
  by_cases h0 : pb.num_pins_of_net_in_pb net = 0
  · rw [if_pos h0]
    exact ⟨rfl, rfl, rfl, fun _ => by simp⟩
  · rw [if_neg h0]
    exact ⟨rfl, rfl, rfl, fun h => absurd h h0⟩

theorem mark_net_gain_update_preserved
    (uc ut : (AtomId → Option ℚ) → AtomId → Option ℚ) (td cd : Bool)
    (ne : AtomId → ℤ) (clb : AtomId → Option Nat)
    (net : NetId) (info : AtomNet) (pb1 : PbStatsGain) :
    (mark_net_gain_update uc ut td cd ne clb net info pb1).marked_nets = pb1.marked_nets
    ∧ (mark_net_gain_update uc ut td cd ne clb net info pb1).num_pins_of_net_in_pb
        = pb1.num_pins_of_net_in_pb
    ∧ (mark_net_gain_update uc ut td cd ne clb net info pb1).tie_break_high_fanout_net
        = pb1.tie_break_high_fanout_net := by
  have hS := foldl_share_gain_preserved ne clb (pins_walked info) pb1
  by_cases h0 : pb1.num_pins_of_net_in_pb net = 0 <;>
    cases td <;> cases cd <;>
      simp only [mark_net_gain_update, h0, eq_self_iff_true, if_true, ite_true,
        Bool.false_eq_true, if_false, ite_false, not_false_iff] <;>
      first
        | exact hS
        | trivial

theorem bump_num_pins_fields (net : NetId) (pb2 : PbStatsGain) :
    (bump_num_pins net pb2).num_pins_of_net_in_pb net = pb2.num_pins_of_net_in_pb net + 1
    ∧ (bump_num_pins net pb2).marked_nets = pb2.marked_nets
    ∧ (bump_num_pins net pb2).sharinggain = pb2.sharinggain
    ∧ (bump_num_pins net pb2).hillgain = pb2.hillgain
    ∧ (bump_num_pins net pb2).marked_blocks = pb2.marked_blocks
    ∧ (bump_num_pins net pb2).tie_break_high_fanout_net = pb2.tie_break_high_fanout_net := by
  unfold bump_num_pins
  exact ⟨by simp, rfl, rfl, rfl, rfl, rfl⟩

theorem mark_net_gain_update_share
    (uc ut : (AtomId → Option ℚ) → AtomId → Option ℚ) (td cd : Bool)
    (ne : AtomId → ℤ) (clb : AtomId → Option Nat)
    (net : NetId) (info : AtomNet) (pb1 : PbStatsGain)
    (h0 : pb1.num_pins_of_net_in_pb net = 0) :
    (mark_net_gain_update uc ut td cd ne clb net info pb1).sharinggain
      = ((pins_walked info).foldl (mark_block_share_gain ne clb) pb1).sharinggain
    ∧ (mark_net_gain_update uc ut td cd ne clb net info pb1).hillgain
      = ((pins_walked info).foldl (mark_block_share_gain ne clb) pb1).hillgain
    ∧ (mark_net_gain_update uc ut td cd ne clb net info pb1).marked_blocks
      = ((pins_walked info).foldl (mark_block_share_gain ne clb) pb1).marked_blocks := by
  cases td <;> cases cd <;>
    simp only [mark_net_gain_update, h0, eq_self_iff_true, if_true, ite_true,
      Bool.false_eq_true, ite_false] <;>
    first
      | exact ⟨rfl, rfl, rfl⟩
      | trivial

theorem mark_net_in_pb_observables (gf td cd : Bool)
    (uc ut : (AtomId → Option ℚ) → AtomId → Option ℚ)
    (ne : AtomId → ℤ) (clb : AtomId → Option Nat)
    (net : NetId) (info : AtomNet) (pb : PbStatsGain) :
    (mark_net_in_pb gf uc ut td cd ne clb net info pb).num_pins_of_net_in_pb net
      = pb.num_pins_of_net_in_pb net + 1
    ∧ (pb.num_pins_of_net_in_pb net = 0 →
        net ∈ (mark_net_in_pb gf uc ut td cd ne clb net info pb).marked_nets)
    ∧ (mark_net_in_pb gf uc ut td cd ne clb net info pb).tie_break_high_fanout_net
        = pb.tie_break_high_fanout_net := by
  have hFT := mark_net_first_touch_fields net pb
  have hGU := mark_net_gain_update_preserved uc ut td cd ne clb net info
    (mark_net_first_touch net pb)
  cases gf <;>
    simp only [mark_net_in_pb, Bool.false_eq_true, ite_false, eq_self_iff_true,
      if_true, ite_true]
  · have hB := bump_num_pins_fields net (mark_net_first_touch net pb)
    exact ⟨by rw [hB.1, congrFun hFT.1 net],
      fun h => by rw [hB.2.1]; exact hFT.2.2.2 h,
      by rw [hB.2.2.2.2.2]; exact hFT.2.2.1⟩
  · have hB := bump_num_pins_fields net
      (mark_net_gain_update uc ut td cd ne clb net info (mark_net_first_touch net pb))
    exact ⟨by rw [hB.1, congrFun hGU.2.1 net, congrFun hFT.1 net],
      fun h => by rw [hB.2.1, hGU.1]; exact hFT.2.2.2 h,
      by rw [hB.2.2.2.2.2, hGU.2.2]; exact hFT.2.2.1⟩

theorem mark_net_in_pb_share (td cd : Bool)
    (uc ut : (AtomId → Option ℚ) → AtomId → Option ℚ)
    (ne : AtomId → ℤ) (clb : AtomId → Option Nat)
    (net : NetId) (info : AtomNet) (pb : PbStatsGain)
    (h0 : pb.num_pins_of_net_in_pb net = 0)
    (blk : AtomId) (hmem : blk ∈ pins_walked info) (hnd : (pins_walked info).Nodup)
    (hclb : clb blk = none) (hfresh : pb.sharinggain blk = none) :
    (mark_net_in_pb true uc ut td cd ne clb net info pb).sharinggain blk = some 1
    ∧ (mark_net_in_pb true uc ut td cd ne clb net info pb).hillgain blk
        = some (1 - (ne blk : ℚ))
    ∧ blk ∈ (mark_net_in_pb true uc ut td cd ne clb net info pb).marked_blocks := by
  have hFT := mark_net_first_touch_fields net pb
  have h0' : (mark_net_first_touch net pb).num_pins_of_net_in_pb net = 0 := by
    rw [congrFun hFT.1 net]; exact h0
  have hfresh' : (mark_net_first_touch net pb).sharinggain blk = none := by
    rw [congrFun hFT.2.1 blk]; exact hfresh
  have hfold := foldl_share_gain_fresh ne clb blk hclb (pins_walked info)
    (mark_net_first_touch net pb) hmem hnd hfresh'
  have hgs := mark_net_gain_update_share uc ut td cd ne clb net info
    (mark_net_first_touch net pb) h0'
  have hB := bump_num_pins_fields net
    (mark_net_gain_update uc ut td cd ne clb net info (mark_net_first_touch net pb))
  simp only [mark_net_in_pb, eq_self_iff_true, if_true, ite_true]
  refine ⟨?_, ?_, ?_⟩
  · rw [congrFun hB.2.2.1 blk, congrFun hgs.1 blk]
    exact hfold.1
  · rw [congrFun hB.2.2.2.1 blk, congrFun hgs.2.1 blk]
    exact hfold.2.1
  · rw [hB.2.2.2.2.1, hgs.2.2]
    exact hfold.2.2

theorem update_root_tie_break_gain_fields (s : NetId → Nat) (net : NetId)
    (root : PbStatsGain) :
    gain_fields (update_root_tie_break s net root) = gain_fields root := by
  unfold update_root_tie_break
  split
  · rfl
  · split <;> rfl

theorem mark_and_update_eq_walk (gain_flag td cd : Bool)
    (uc ut : (AtomId → Option ℚ) → AtomId → Option ℚ)
    (ne : AtomId → ℤ) (clb : AtomId → Option Nat)
    (nets : NetId → AtomNet) (net : NetId) (chain : List PbStatsGain)
    (h : ¬ 256 < (nets net).sinkBlocks.length) :
    mark_and_update_partial_gain gain_flag uc ut td cd ne clb nets net chain
      = chain.map (mark_net_in_pb gain_flag uc ut td cd ne clb net (nets net)) := by
  unfold mark_and_update_partial_gain
  rw [if_neg h]

theorem mark_and_update_eq_global (gain_flag td cd : Bool)
    (uc ut : (AtomId → Option ℚ) → AtomId → Option ℚ)
    (ne : AtomId → ℤ) (clb : AtomId → Option Nat)
    (nets : NetId → AtomNet) (net : NetId) (chain : List PbStatsGain)
    (h256 : 256 < (nets net).sinkBlocks.length) (hg : (nets net).isGlobal = true) :
    mark_and_update_partial_gain gain_flag uc ut td cd ne clb nets net chain = chain := by
  unfold mark_and_update_partial_gain
  rw [if_pos h256, if_pos hg]

theorem mark_and_update_eq_high (gain_flag td cd : Bool)
    (uc ut : (AtomId → Option ℚ) → AtomId → Option ℚ)
    (ne : AtomId → ℤ) (clb : AtomId → Option Nat)
    (nets : NetId → AtomNet) (net : NetId) (chain : List PbStatsGain)
    (h256 : 256 < (nets net).sinkBlocks.length) (hg : (nets net).isGlobal = false)
    (root : PbStatsGain) (hlast : chain.getLast? = some root) :
    mark_and_update_partial_gain gain_flag uc ut td cd ne clb nets net chain
      = chain.dropLast ++
          [update_root_tie_break (fun n => (nets n).sinkBlocks.length) net root] := by
  unfold mark_and_update_partial_gain
  rw [if_pos h256, if_neg (by simp [hg]), hlast]

theorem mark_and_update_eq_high_nil (gain_flag td cd : Bool)
    (uc ut : (AtomId → Option ℚ) → AtomId → Option ℚ)
    (ne : AtomId → ℤ) (clb : AtomId → Option Nat)
    (nets : NetId → AtomNet) (net : NetId) (chain : List PbStatsGain)
    (h256 : 256 < (nets net).sinkBlocks.length) (hg : (nets net).isGlobal = false)
    (hlast : chain.getLast? = none) :
    mark_and_update_partial_gain gain_flag uc ut td cd ne clb nets net chain = chain := by
  unfold mark_and_update_partial_gain
  rw [if_pos h256, if_neg (by simp [hg]), hlast]

theorem update_root_tie_break_of_none (s : NetId → Nat) (net : NetId)
    (root : PbStatsGain) (h : root.tie_break_high_fanout_net = none) :
    (update_root_tie_break s net root).tie_break_high_fanout_net = some net := by
  unfold update_root_tie_break
  rw [h]

theorem update_root_tie_break_of_some (s : NetId → Nat) (net : NetId)
    (root : PbStatsGain) (stored : NetId)
    (h : root.tie_break_high_fanout_net = some stored) :
    (update_root_tie_break s net root).tie_break_high_fanout_net
      = if s net < s stored then some net else some stored := by
  unfold update_root_tie_break
  rw [h]
  show (if s net < s stored then
      { root with tie_break_high_fanout_net := some net }
    else root).tie_break_high_fanout_net = if s net < s stored then some net else some stored
  by_cases hc : s net < s stored
  · rw [if_pos hc, if_pos hc]
  · rw [if_neg hc, if_neg hc]
    exact h

/-- Claim C4 (amended): `mark_and_update_partial_gain` walks a net for gain
and marking exactly when its sink count is at most
`MAX_NET_SINKS_IGNORE = 256`: in that case every pb of the chain has the
net's pin count incremented and the net marked on first touch, and (with
gain enabled) a fresh unclustered pin block receives `sharinggain = 1` and
joins `marked_blocks`.  A net with 257 or more sinks is not walked (all
gain and marking fields are left untouched); if it is non-global it is
recorded as the cluster root's `tie_break_high_fanout_net` exactly when no
such net is stored yet or its sink count is strictly smaller than the
stored net's. -/
theorem c4_net_sink_dispatch (gain_flag td cd : Bool)
    (uc ut : (AtomId → Option ℚ) → AtomId → Option ℚ)
    (ne : AtomId → ℤ) (clb : AtomId → Option Nat)
    (nets : NetId → AtomNet) (net : NetId) (chain : List PbStatsGain) :
    ((nets net).sinkBlocks.length ≤ 256 →
      mark_and_update_partial_gain gain_flag uc ut td cd ne clb nets net chain
        = chain.map (mark_net_in_pb gain_flag uc ut td cd ne clb net (nets net))
      ∧ ∀ pb ∈ chain,
          (mark_net_in_pb gain_flag uc ut td cd ne clb net
              (nets net) pb).num_pins_of_net_in_pb net
            = pb.num_pins_of_net_in_pb net + 1
          ∧ (pb.num_pins_of_net_in_pb net = 0 →
              net ∈ (mark_net_in_pb gain_flag uc ut td cd ne clb net
                (nets net) pb).marked_nets))
    ∧ (∀ pb : PbStatsGain, pb.num_pins_of_net_in_pb net = 0 →
        ∀ blk ∈ pins_walked (nets net), (pins_walked (nets net)).Nodup →
          clb blk = none → pb.sharinggain blk = none →
          (mark_net_in_pb true uc ut td cd ne clb net
              (nets net) pb).sharinggain blk = some 1
          ∧ blk ∈ (mark_net_in_pb true uc ut td cd ne clb net
              (nets net) pb).marked_blocks)
    ∧ (256 < (nets net).sinkBlocks.length →
        (mark_and_update_partial_gain gain_flag uc ut td cd ne clb nets net
            chain).map gain_fields = chain.map gain_fields
        ∧ ((nets net).isGlobal = true →
            mark_and_update_partial_gain gain_flag uc ut td cd ne clb nets net chain
              = chain)
        ∧ ((nets net).isGlobal = false →
            ∀ root, chain.getLast? = some root →
              (mark_and_update_partial_gain gain_flag uc ut td cd ne clb nets net
                  chain).getLast?
                = some (update_root_tie_break
                    (fun n => (nets n).sinkBlocks.length) net root)
              ∧ (root.tie_break_high_fanout_net = none →
                  (update_root_tie_break (fun n => (nets n).sinkBlocks.length)
                      net root).tie_break_high_fanout_net = some net)
              ∧ (∀ stored, root.tie_break_high_fanout_net = some stored →
                  (update_root_tie_break (fun n => (nets n).sinkBlocks.length)
                      net root).tie_break_high_fanout_net
                    = if (nets net).sinkBlocks.length
                        < (nets stored).sinkBlocks.length
                      then some net else some stored))) := by
  refine ⟨?_, ?_, ?_⟩
  · intro hle
    refine ⟨mark_and_update_eq_walk gain_flag td cd uc ut ne clb nets net chain
      (by omega), ?_⟩
    intro pb _
    have h := mark_net_in_pb_observables gain_flag td cd uc ut ne clb net (nets net) pb
    exact ⟨h.1, h.2.1⟩
  · intro pb h0 blk hmem hnd hclb hfresh
    have h := mark_net_in_pb_share td cd uc ut ne clb net (nets net) pb h0 blk
      hmem hnd hclb hfresh
    exact ⟨h.1, h.2.2⟩
  · intro h256
    by_cases hg : (nets net).isGlobal = true
    · rw [mark_and_update_eq_global gain_flag td cd uc ut ne clb nets net chain h256 hg]
      refine ⟨rfl, fun _ => rfl, ?_⟩
      intro hgf
      rw [hg] at hgf
      cases hgf
    · have hg' : (nets net).isGlobal = false := by
        cases h : (nets net).isGlobal
        · rfl
        · exact absurd h hg
      refine ⟨?_, fun h => absurd h hg, ?_⟩
      · cases hlast : chain.getLast? with
        | none =>
          rw [mark_and_update_eq_high_nil gain_flag td cd uc ut ne clb nets net chain
            h256 hg' hlast]
        | some root =>
          rw [mark_and_update_eq_high gain_flag td cd uc ut ne clb nets net chain
            h256 hg' root hlast]
          rw [List.map_append]
          conv_rhs => rw [← List.dropLast_append_getLast? root hlast]
          rw [List.map_append]
          simp [update_root_tie_break_gain_fields]
      · intro _ root hlast
        refine ⟨?_, update_root_tie_break_of_none _ net root,
          update_root_tie_break_of_some _ net root⟩
        rw [mark_and_update_eq_high gain_flag td cd uc ut ne clb nets net chain
          h256 hg' root hlast]
        exact List.getLast?_concat _

theorem c4_net_sink_dispatch_witness :
    (mark_net_in_pb true (fun c => c) (fun c => c) false false (fun _ => 2)
        (fun _ => none) 0 ⟨[1], [0, 1], false, false⟩
        ⟨[], fun _ => 0, [], fun _ => none, fun _ => none, fun _ => none,
         fun _ => none, none⟩).num_pins_of_net_in_pb 0 = 1
    ∧ (mark_net_in_pb true (fun c => c) (fun c => c) false false (fun _ => 2)
        (fun _ => none) 0 ⟨[1], [0, 1], false, false⟩
        ⟨[], fun _ => 0, [], fun _ => none, fun _ => none, fun _ => none,
         fun _ => none, none⟩).sharinggain 1 = some 1 := by
  have h := c4_net_sink_dispatch true false false (fun c => c) (fun c => c)
    (fun _ => 2) (fun _ => none)
    (fun _ => ⟨[1], [0, 1], false, false⟩) 0
    [⟨[], fun _ => 0, [], fun _ => none, fun _ => none, fun _ => none,
      fun _ => none, none⟩]
  have h1 := (h.1 (by norm_num)).2 _ (List.mem_singleton.mpr rfl)
  have h2 := h.2.1 ⟨[], fun _ => 0, [], fun _ => none, fun _ => none, fun _ => none,
      fun _ => none, none⟩ rfl 1 (by simp [pins_walked]) (by simp [pins_walked])
      rfl rfl
  exact ⟨h1.1, h2.1⟩

/-- Claim C4, counterexample to the claim as stated: the claim says a
non-global net with 257 or more sinks "is recorded as the cluster root's
tie_break_high_fanout_net".  In the code the store is conditional
(cluster.cpp line 1674): when the root already stores a high-fanout net
with fewer sinks (here net 0 with 257 sinks), a 300-sink net (net 1) is
ignored and the stored net stays net 0. -/
theorem c4_counterexample :
    ((mark_and_update_partial_gain true (fun c => c) (fun c => c) false false
        (fun _ => 0) (fun _ => none)
        (fun n => if n = 1 then ⟨List.range 300, List.range 301, false, false⟩
                  else ⟨List.range 257, List.range 258, false, false⟩)
        1
        [⟨[], fun _ => 0, [], fun _ => none, fun _ => none, fun _ => none,
          fun _ => none, some 0⟩]).map
        PbStatsGain.tie_break_high_fanout_net) = [some 0]
    ∧ (some 0 : Option NetId) ≠ some 1 := by
  constructor
  · rw [mark_and_update_eq_high true false false (fun c => c) (fun c => c)
      (fun _ => 0) (fun _ => none)
      (fun n => if n = 1 then ⟨List.range 300, List.range 301, false, false⟩
                else ⟨List.range 257, List.range 258, false, false⟩) 1
      [⟨[], fun _ => 0, [], fun _ => none, fun _ => none, fun _ => none,
        fun _ => none, some 0⟩]
      (by simp [List.length_range]) (by simp)
      ⟨[], fun _ => 0, [], fun _ => none, fun _ => none, fun _ => none,
        fun _ => none, some 0⟩ rfl]
    simp [update_root_tie_break, List.length_range]
  · simp

theorem update_block_total_gain_getD (alpha beta : ℚ) (td cd : Bool)
    (u : AtomId → Nat) (pb : PbTotalGain) (x b : AtomId) :
    ((update_block_total_gain alpha beta td cd u pb x).sharinggain b).getD 0
      = (pb.sharinggain b).getD 0
    ∧ ((update_block_total_gain alpha beta td cd u pb x).connectiongain b).getD 0
      = (pb.connectiongain b).getD 0
    ∧ (update_block_total_gain alpha beta td cd u pb x).timinggain = pb.timinggain
    ∧ (update_block_total_gain alpha beta td cd u pb x).marked_blocks = pb.marked_blocks := by
  refine ⟨?_, ?_, rfl, rfl⟩ <;>
    · simp only [update_block_total_gain]
      by_cases hb : b = x <;> simp [hb]

theorem update_block_total_gain_own (alpha beta : ℚ) (td cd : Bool)
    (u : AtomId → Nat) (pb : PbTotalGain) (blk : AtomId) :
    (update_block_total_gain alpha beta td cd u pb blk).gain blk
      = spec_blended_gain alpha beta td cd ((pb.timinggain blk).getD 0)
          ((pb.sharinggain blk).getD 0) ((pb.connectiongain blk).getD 0) (u blk) := by
  simp [update_block_total_gain, spec_blended_gain]

theorem update_block_total_gain_other (alpha beta : ℚ) (td cd : Bool)
    (u : AtomId → Nat) (pb : PbTotalGain) (x b : AtomId) (hne : b ≠ x) :
    (update_block_total_gain alpha beta td cd u pb x).gain b = pb.gain b := by
  simp [update_block_total_gain, hne]

theorem foldl_total_gain_not_mem (alpha beta : ℚ) (td cd : Bool)
    (u : AtomId → Nat) (blk : AtomId) :
    ∀ (l : List AtomId) (pb : PbTotalGain), blk ∉ l →
      (l.foldl (update_block_total_gain alpha beta td cd u) pb).gain blk = pb.gain blk := by
  intro l
  induction l with
  | nil => intro pb _; rfl
  | cons x xs ih =>
    intro pb hnm
    have hx : blk ≠ x := by
      rintro rfl
      exact hnm (List.mem_cons_self blk xs)
    have hxs : blk ∉ xs := fun h => hnm (List.mem_cons_of_mem x h)
    simp only [List.foldl_cons]
    rw [ih (update_block_total_gain alpha beta td cd u pb x) hxs]
    exact update_block_total_gain_other alpha beta td cd u pb x blk hx

theorem foldl_total_gain_mem (alpha beta : ℚ) (td cd : Bool)
    (u : AtomId → Nat) (blk : AtomId) :
    ∀ (l : List AtomId) (pb : PbTotalGain), blk ∈ l →
      (l.foldl (update_block_total_gain alpha beta td cd u) pb).gain blk
        = spec_blended_gain alpha beta td cd ((pb.timinggain blk).getD 0)
            ((pb.sharinggain blk).getD 0) ((pb.connectiongain blk).getD 0) (u blk) := by
  intro l
  induction l with
  | nil => intro pb h; cases h
  | cons x xs ih =>
    intro pb hmem
    simp only [List.foldl_cons]
    have hstep := update_block_total_gain_getD alpha beta td cd u pb x blk
    by_cases hxs : blk ∈ xs
    · rw [ih (update_block_total_gain alpha beta td cd u pb x) hxs,
        hstep.1, hstep.2.1, hstep.2.2.1]
    · rcases List.mem_cons.mp hmem with rfl | h
      · rw [foldl_total_gain_not_mem alpha beta td cd u blk xs _ hxs]
        exact update_block_total_gain_own alpha beta td cd u pb blk
      · exact absurd h hxs

/-- Claim C5: after `update_total_gain` runs (it is called after every
molecule commit, cluster.cpp line 1891), every marked atom's blended gain
equals
`α·timinggain + (1−α)·((1−β)·sharinggain + β·connectiongain)/used_pins`
with the timing term included only in timing-driven mode, the connection
term only in connection-driven mode (`spec_blended_gain`), reading absent
map entries as 0; unmarked atoms keep their previous gain. -/
theorem c5_update_total_gain (alpha beta : ℚ) (timing_driven connection_driven : Bool)
    (num_used_pins : AtomId → Nat) (pb : PbTotalGain) (blk : AtomId) :
    (blk ∈ pb.marked_blocks → 0 < num_used_pins blk →
      (update_total_gain_pb alpha beta timing_driven connection_driven
          num_used_pins pb).gain blk
        = spec_blended_gain alpha beta timing_driven connection_driven
            ((pb.timinggain blk).getD 0) ((pb.sharinggain blk).getD 0)
            ((pb.connectiongain blk).getD 0) (num_used_pins blk))
    ∧ (blk ∉ pb.marked_blocks →
        (update_total_gain_pb alpha beta timing_driven connection_driven
            num_used_pins pb).gain blk = pb.gain blk)
    ∧ ∀ chain : List PbTotalGain, pb ∈ chain →
        update_total_gain alpha beta timing_driven connection_driven num_used_pins chain
          = chain.map (update_total_gain_pb alpha beta timing_driven connection_driven
              num_used_pins) := by
  refine ⟨fun hmem _ => ?_, fun hnm => ?_, fun chain _ => rfl⟩
  · exact foldl_total_gain_mem alpha beta timing_driven connection_driven
      num_used_pins blk pb.marked_blocks pb hmem
  · exact foldl_total_gain_not_mem alpha beta timing_driven connection_driven
      num_used_pins blk pb.marked_blocks pb hnm

theorem c5_update_total_gain_witness :
    (update_total_gain_pb (1/2) (1/3) true true (fun _ => 4)
        ⟨[7], fun _ => some 2, fun _ => some 3, fun _ => some 5, fun _ => 0⟩).gain 7
      = spec_blended_gain (1/2) (1/3) true true 5 2 3 4
    ∧ (update_total_gain_pb (1/2) (1/3) true true (fun _ => 4)
        ⟨[7], fun _ => some 2, fun _ => some 3, fun _ => some 5, fun _ => 0⟩).gain 8 = 0 := by
  have h := c5_update_total_gain (1/2) (1/3) true true (fun _ => 4)
    ⟨[7], fun _ => some 2, fun _ => some 3, fun _ => some 5, fun _ => 0⟩
  exact ⟨(h 7).1 (by decide) (by decide), (h 8).2.1 (by decide)⟩

theorem seed_blend_gain_fold_ge (crit : ℚ) (mi : Nat) :
    ∀ (l : List SeedMolecule) (acc : ℚ),
      acc ≤ l.foldl (fun acc m =>
          let bg := molecule_blend_gain crit mi m
          if acc < bg then bg else acc) acc
      ∧ ∀ m ∈ l, molecule_blend_gain crit mi m
          ≤ l.foldl (fun acc m =>
              let bg := molecule_blend_gain crit mi m
              if acc < bg then bg else acc) acc := by
  intro l
  induction l with
  | nil => exact fun acc => ⟨le_refl acc, fun m h => absurd h (List.not_mem_nil m)⟩
  | cons x xs ih =>
    intro acc
    simp only [List.foldl_cons]
    set acc' := if acc < molecule_blend_gain crit mi x then molecule_blend_gain crit mi x
      else acc with hacc'
    have hstep : acc ≤ acc' ∧ molecule_blend_gain crit mi x ≤ acc' := by
      rw [hacc']
      by_cases hc : acc < molecule_blend_gain crit mi x
      · rw [if_pos hc]
        exact ⟨le_of_lt hc, le_refl _⟩
      · rw [if_neg hc]
        exact ⟨le_refl acc, le_of_not_lt hc⟩
    refine ⟨le_trans hstep.1 (ih acc').1, ?_⟩
    intro m hm
    rcases List.mem_cons.mp hm with rfl | hm'
    · exact le_trans hstep.2 (ih acc').1
    · exact (ih acc').2 m hm'

theorem seed_blend_gain_fold_attained (crit : ℚ) (mi : Nat) :
    ∀ (l : List SeedMolecule) (acc : ℚ),
      l.foldl (fun acc m =>
          let bg := molecule_blend_gain crit mi m
          if acc < bg then bg else acc) acc = acc
      ∨ ∃ m ∈ l, l.foldl (fun acc m =>
          let bg := molecule_blend_gain crit mi m
          if acc < bg then bg else acc) acc = molecule_blend_gain crit mi m := by
  intro l
  induction l with
  | nil => exact fun acc => Or.inl rfl
  | cons x xs ih =>
    intro acc
    simp only [List.foldl_cons]
    by_cases hc : acc < molecule_blend_gain crit mi x
    · rw [if_pos hc]
      rcases ih (molecule_blend_gain crit mi x) with h | ⟨m, hm, h⟩
      · exact Or.inr ⟨x, List.mem_cons_self x xs, h⟩
      · exact Or.inr ⟨m, List.mem_cons_of_mem x hm, h⟩
    · rw [if_neg hc]
      rcases ih acc with h | ⟨m, hm, h⟩
      · exact Or.inl h
      · exact Or.inr ⟨m, List.mem_cons_of_mem x hm, h⟩

theorem seed_sort_ins_perm (score : AtomId → ℚ) (x : AtomId) (l : List AtomId) :
    (seed_sort_ins score x l).Perm (x :: l) := by
  induction l with
  | nil => simp [seed_sort_ins]
  | cons y ys ih =>
    simp only [seed_sort_ins]
    split
    · exact List.Perm.refl _
    · exact (List.Perm.cons y ih).trans (List.Perm.swap _ _ _)

theorem seed_sort_ins_pairwise (score : AtomId → ℚ) (x : AtomId) (l : List AtomId)
    (h : l.Pairwise (fun a b => score b ≤ score a)) :
    (seed_sort_ins score x l).Pairwise (fun a b => score b ≤ score a) := by
  induction l with
  | nil => simp [seed_sort_ins]
  | cons y ys ih =>
    rcases List.pairwise_cons.mp h with ⟨hy, hys⟩
    simp only [seed_sort_ins]
    split
    · rename_i hlt
      refine List.pairwise_cons.mpr ⟨?_, h⟩
      intro b hb
      rcases List.mem_cons.mp hb with rfl | hb
      · exact le_of_lt hlt
      · exact le_trans (hy b hb) (le_of_lt hlt)
    · rename_i hge
      push_neg at hge
      refine List.pairwise_cons.mpr ⟨?_, ih hys⟩
      intro b hb
      rw [(seed_sort_ins_perm score x ys).mem_iff] at hb
      rcases List.mem_cons.mp hb with rfl | hb
      · exact hge
      · exact hy b hb

theorem seed_sort_desc_sorted (score : AtomId → ℚ) (l : List AtomId) :
    (seed_sort_desc score l).Pairwise (fun a b => score b ≤ score a)
    ∧ (seed_sort_desc score l).Perm l := by
  induction l with
  | nil => exact ⟨List.Pairwise.nil, List.Perm.refl _⟩
  | cons x xs ih =>
    simp only [seed_sort_desc]
    exact ⟨seed_sort_ins_pairwise score x _ ih.1,
      (seed_sort_ins_perm score x _).trans (List.Perm.cons x ih.2)⟩

theorem next_seed_desc (score : AtomId → ℚ) (atom_clb : AtomId → Option Nat) :
    ∀ (l : List AtomId), l.Pairwise (fun a b => score b ≤ score a) →
      ∀ a rest, next_seed atom_clb l = some (a, rest) →
        atom_clb a = none ∧ (∀ b ∈ rest, score b ≤ score a)
        ∧ rest.Pairwise (fun a b => score b ≤ score a) := by
  intro l
  induction l with
  | nil => intro _ a rest h; cases h
  | cons x xs ih =>
    intro hp a rest h
    rcases List.pairwise_cons.mp hp with ⟨hx, hxs⟩
    by_cases hc : atom_clb x = none
    · rw [next_seed, if_pos hc] at h
      injection h with h'
      injection h' with h1 h2
      subst h1; subst h2
      exact ⟨hc, hx, hxs⟩
    · rw [next_seed, if_neg hc] at h
      exact ih hxs a rest h

/-- Claim C6 (amended): under the BLEND seed policy every atom's seed score
is the maximum, folded from 0, over its molecules of
`(0.5·crit + 0.5·(num_ext_inputs / max_inputs)) · (1 + 0.2·(num_blocks − 1))`
where the input ratio is C integer division (not a real-valued fraction);
the seed array is sorted by descending score and seeds are consumed in
that order, skipping already clustered atoms. -/
theorem c6_blend_seed (crit : ℚ) (max_molecule_inputs : Nat)
    (mols : List SeedMolecule) (score : AtomId → ℚ) (atoms : List AtomId)
    (atom_clb : AtomId → Option Nat) :
    (∀ m ∈ mols, molecule_blend_gain crit max_molecule_inputs m
        ≤ seed_blend_gain crit max_molecule_inputs mols)
    ∧ 0 ≤ seed_blend_gain crit max_molecule_inputs mols
    ∧ (seed_blend_gain crit max_molecule_inputs mols = 0
        ∨ ∃ m ∈ mols, seed_blend_gain crit max_molecule_inputs mols
            = molecule_blend_gain crit max_molecule_inputs m)
    ∧ (seed_sort_desc score atoms).Pairwise (fun a b => score b ≤ score a)
    ∧ (seed_sort_desc score atoms).Perm atoms
    ∧ (∀ a rest, next_seed atom_clb (seed_sort_desc score atoms) = some (a, rest) →
        atom_clb a = none ∧ ∀ b ∈ rest, score b ≤ score a) := by
  have hge := seed_blend_gain_fold_ge crit max_molecule_inputs mols 0
  have hat := seed_blend_gain_fold_attained crit max_molecule_inputs mols 0
  have hs := seed_sort_desc_sorted score atoms
  refine ⟨hge.2, hge.1, hat, hs.1, hs.2, ?_⟩
  intro a rest h
  have := next_seed_desc score atom_clb (seed_sort_desc score atoms) hs.1 a rest h
  exact ⟨this.1, this.2.1⟩

theorem c6_blend_seed_witness :
    molecule_blend_gain 1 2 ⟨2, 2⟩ ≤ seed_blend_gain 1 2 [⟨2, 2⟩]
    ∧ (seed_sort_desc (fun a => -(a : ℚ)) [1, 0]).Perm [1, 0]
    ∧ ((none : Option Nat) = none
        ∧ ∀ b ∈ ([1] : List AtomId), -(b : ℚ) ≤ -((0 : AtomId) : ℚ)) := by
  have h := c6_blend_seed 1 2 [⟨2, 2⟩] (fun a => -(a : ℚ)) [1, 0]
    (fun _ => (none : Option Nat))
  refine ⟨h.1 ⟨2, 2⟩ (List.mem_singleton.mpr rfl), ?_, ?_⟩
  · exact (c6_blend_seed 1 2 [] (fun a => -(a : ℚ)) [1, 0]
      (fun _ => (none : Option Nat))).2.2.2.2.1
  · exact h.2.2.2.2.2 0 [1] (by decide)

/-- Claim C6, counterexample to the claim as stated: the claim says the
input ratio `num_ext_inputs(m) / max_inputs` is a real-valued fraction.  In
the source both operands are C `int`s, so the ratio is integer division:
for an atom with criticality 0 whose only molecule has 1 external input and
1 block, with `max_molecule_inputs = 2`, the code computes score 0 while
the claimed formula gives 1/4. -/
theorem c6_counterexample :
    seed_blend_gain 0 2 [⟨1, 1⟩] = 0
    ∧ spec_seed_blend_gain_real 0 2 [⟨1, 1⟩] = 1/4
    ∧ (0 : ℚ) ≠ 1/4 := by
  refine ⟨?_, ?_, by norm_num⟩
  · norm_num [seed_blend_gain, molecule_blend_gain]
  · norm_num [spec_seed_blend_gain_real, spec_molecule_blend_gain_real]

/-- Claim C7: when the root atom of a chain molecule is placed and its port
driving the `chain_root_pin` is connected to an atom net,
`try_place_atom_block_rec` returns `FAILED_FEASIBLE` unless the assigned
pb-graph node equals the chain_root_pin's parent node; consequently a
successful (PASSED) placement of such a root atom is on the
chain_root_pin's parent node. -/
theorem c7_chain_root_placement (primitive_feasible : Bool) (chk : ChainRootCheck)
    (n : NetId) :
    (chk.port_found = true → chk.chain_net = some n →
      chk.pb_graph_node ≠ chk.chain_root_parent_node →
      try_place_atom_block_prim primitive_feasible true chk
        = BlockPackStatus.FAILED_FEASIBLE)
    ∧ (try_place_atom_block_prim primitive_feasible true chk
        = BlockPackStatus.PASSED →
      chk.port_found = true → chk.chain_net = some n →
      chk.pb_graph_node = chk.chain_root_parent_node) := by
  cases primitive_feasible
  · constructor
    · intro _ _ _
      simp [try_place_atom_block_prim]
    · intro h
      simp [try_place_atom_block_prim] at h
  · constructor
    · intro hport hnet hne
      simp [try_place_atom_block_prim, hport, hnet, hne]
    · intro h hport hnet
      by_cases hne : chk.pb_graph_node = chk.chain_root_parent_node
      · exact hne
      · simp [try_place_atom_block_prim, hport, hnet, hne] at h

theorem c7_chain_root_placement_witness :
    try_place_atom_block_prim true true ⟨1, 2, true, some 5⟩
      = BlockPackStatus.FAILED_FEASIBLE
    ∧ (try_place_atom_block_prim true true ⟨3, 3, true, some 5⟩
        = BlockPackStatus.PASSED →
       (⟨3, 3, true, some 5⟩ : ChainRootCheck).pb_graph_node
         = (⟨3, 3, true, some 5⟩ : ChainRootCheck).chain_root_parent_node) := by
  constructor
  · exact (c7_chain_root_placement true ⟨1, 2, true, some 5⟩ 5).1 rfl rfl (by decide)
  · intro h
    exact (c7_chain_root_placement true ⟨3, 3, true, some 5⟩ 5).2 h rfl rfl

theorem growth_loop_exit_none {σ : Type} (gen : σ → Option MolId)
    (try_pack : σ → MolId → Bool × σ) (upd : σ → MolId → σ)
    (fuel : Nat) (prev : MolId) (s : σ) :
    growth_loop gen try_pack upd (fuel + 1) prev none s = some s := by
  rfl

theorem growth_loop_exit_same {σ : Type} (gen : σ → Option MolId)
    (try_pack : σ → MolId → Bool × σ) (upd : σ → MolId → σ)
    (fuel : Nat) (prev : MolId) (s : σ) :
    growth_loop gen try_pack upd (fuel + 1) prev (some prev) s = some s := by
  simp [growth_loop]

/-- Claim C10: the growth loop exits as soon as `get_molecule_for_cluster`
returns no molecule or the same molecule as in the previous iteration; in
particular, when the candidate generator keeps returning one fixed best
molecule (no matter how often `try_pack_molecule` fails on it), the loop
terminates within two iterations on any fuel of at least 2 — it cannot run
forever. -/
theorem c10_growth_loop_terminates {σ : Type} (gen : σ → Option MolId)
    (try_pack : σ → MolId → Bool × σ) (upd : σ → MolId → σ) :
    (∀ fuel prev (s : σ),
      growth_loop gen try_pack upd (fuel + 1) prev none s = some s)
    ∧ (∀ fuel prev (s : σ),
        growth_loop gen try_pack upd (fuel + 1) prev (some prev) s = some s)
    ∧ (∀ m₀ : MolId, (∀ s : σ, gen s = some m₀) →
        ∀ (prev : MolId) (s : σ) (fuel : Nat), 2 ≤ fuel →
          (growth_loop gen try_pack upd fuel prev (gen s) s).isSome = true) := by
  refine ⟨growth_loop_exit_none gen try_pack upd,
    growth_loop_exit_same gen try_pack upd, ?_⟩
  intro m₀ hgen prev s fuel hfuel
  obtain ⟨f, rfl⟩ : ∃ f, fuel = f + 2 := ⟨fuel - 2, by omega⟩
  rw [hgen s]
  show (growth_loop gen try_pack upd (f + 1 + 1) prev (some m₀) s).isSome = true
  by_cases hm : m₀ = prev
  · subst hm
    rw [growth_loop_exit_same gen try_pack upd (f + 1) m₀ s]
    rfl
  · rw [growth_loop]
    simp only [hm, if_false, ite_false]
    rw [hgen]
    rw [growth_loop_exit_same gen try_pack upd f m₀ _]
    rfl

theorem c10_growth_loop_terminates_witness :
    (growth_loop (fun _ => some 0) (fun s _ => (false, s)) (fun s _ => s)
      2 1 ((fun _ => (some 0 : Option MolId)) (0 : Nat)) (0 : Nat)).isSome = true := by
  exact (c10_growth_loop_terminates (fun _ => some 0) (fun s _ => (false, s))
    (fun s _ => s)).2.2 0 (fun _ => rfl) 1 0 2 (by decide)


/-- Claim C8 (amended): `read_place` raises a placement-file error on a
duplicated provenance header, on a duplicated `Array size` header, on a
grid size differing from the current device dimensions, on a block-location
record before the `Array size` header, on a block name not in the current
netlist, and on any unrecognized line.  (It performs no range check on
block coordinates; they are stored as parsed.) -/
theorem c8_read_place_errors (verify : Bool) (netlist_id : String)
    (L_nx L_ny : Int) (block_list : List String) (st : ReadPlaceState) :
    (∀ f id, st.seen_netlist_id = true →
      process_place_line verify netlist_id L_nx L_ny block_list st
          ["Netlist_File:", f, "Netlist_ID:", id]
        = .error PlaceFileError.duplicateNetlistId)
    ∧ (∀ nx ny, st.seen_grid_dimensions = true →
        process_place_line verify netlist_id L_nx L_ny block_list st
            ["Array", "size:", nx, "x", ny, "logic", "blocks"]
          = .error PlaceFileError.duplicateGridDim)
    ∧ (∀ nx ny, st.seen_grid_dimensions = false →
        (L_nx ≠ place_atoi nx ∨ L_ny ≠ place_atoi ny) →
        process_place_line verify netlist_id L_nx L_ny block_list st
            ["Array", "size:", nx, "x", ny, "logic", "blocks"]
          = .error PlaceFileError.gridMismatch)
    ∧ (∀ name x y z : String, st.seen_grid_dimensions = false →
        name.front ≠ '#' → ¬(name = "Netlist_File:" ∧ y = "Netlist_ID:") →
        process_place_line verify netlist_id L_nx L_ny block_list st [name, x, y, z]
          = .error PlaceFileError.missingGridDim)
    ∧ (∀ name x y z : String, st.seen_grid_dimensions = true →
        name ∉ block_list →
        name.front ≠ '#' → ¬(name = "Netlist_File:" ∧ y = "Netlist_ID:") →
        process_place_line verify netlist_id L_nx L_ny block_list st [name, x, y, z]
          = .error PlaceFileError.unknownBlock)
    ∧ (∀ a b : String, a.front ≠ '#' →
        process_place_line verify netlist_id L_nx L_ny block_list st [a, b]
          = .error PlaceFileError.invalidLine) := by
  refine ⟨?_, ?_, ?_, ?_, ?_, ?_⟩
  · intro f id hseen
    have hred : process_place_line verify netlist_id L_nx L_ny block_list st
        ["Netlist_File:", f, "Netlist_ID:", id]
      = (if st.seen_netlist_id = true then
           Except.error PlaceFileError.duplicateNetlistId
         else if id ≠ netlist_id ∧ verify = true then
           Except.error PlaceFileError.netlistMismatch
         else Except.ok { st with seen_netlist_id := true }) := rfl
    rw [hred, if_pos hseen]
  · intro nx ny hseen
    have hred : process_place_line verify netlist_id L_nx L_ny block_list st
        ["Array", "size:", nx, "x", ny, "logic", "blocks"]
      = (if st.seen_grid_dimensions = true then
           Except.error PlaceFileError.duplicateGridDim
         else if L_nx ≠ place_atoi nx ∨ L_ny ≠ place_atoi ny then
           Except.error PlaceFileError.gridMismatch
         else Except.ok { st with seen_grid_dimensions := true }) := rfl
    rw [hred, if_pos hseen]
  · intro nx ny hseen hmis
    have hred : process_place_line verify netlist_id L_nx L_ny block_list st
        ["Array", "size:", nx, "x", ny, "logic", "blocks"]
      = (if st.seen_grid_dimensions = true then
           Except.error PlaceFileError.duplicateGridDim
         else if L_nx ≠ place_atoi nx ∨ L_ny ≠ place_atoi ny then
           Except.error PlaceFileError.gridMismatch
         else Except.ok { st with seen_grid_dimensions := true }) := rfl
    rw [hred, if_neg (by simp [hseen]), if_pos hmis]
  · intro name x y z hseen hfront hpat
    simp [process_place_line, hseen, hfront, hpat]
  · intro name x y z hseen hnotin hfront hpat
    simp [process_place_line, hseen, hnotin, hfront, hpat]
  · intro a b hfront
    simp [process_place_line, hfront]

theorem c8_read_place_errors_witness :
    process_place_line true "id0" 2 2 ["a"]
        ⟨true, false, []⟩ ["Netlist_File:", "f.net", "Netlist_ID:", "id0"]
      = .error PlaceFileError.duplicateNetlistId
    ∧ process_place_line true "id0" 2 2 ["a"]
        ⟨false, false, []⟩ ["Array", "size:", "3", "x", "2", "logic", "blocks"]
      = .error PlaceFileError.gridMismatch
    ∧ process_place_line true "id0" 2 2 ["a"]
        ⟨false, false, []⟩ ["b", "0", "0", "0"]
      = .error PlaceFileError.missingGridDim
    ∧ process_place_line true "id0" 2 2 ["a"]
        ⟨false, true, []⟩ ["b", "0", "0", "0"]
      = .error PlaceFileError.unknownBlock
    ∧ process_place_line true "id0" 2 2 ["a"]
        ⟨false, true, []⟩ ["garbage", "line"]
      = .error PlaceFileError.invalidLine := by
  refine ⟨?_, ?_, ?_, ?_, ?_⟩
  · exact (c8_read_place_errors true "id0" 2 2 ["a"] ⟨true, false, []⟩).1
      "f.net" "id0" rfl
  · exact (c8_read_place_errors true "id0" 2 2 ["a"] ⟨false, false, []⟩).2.2.1
      "3" "2" rfl (Or.inl (by decide))
  · exact (c8_read_place_errors true "id0" 2 2 ["a"] ⟨false, false, []⟩).2.2.2.1
      "b" "0" "0" "0" rfl (by decide) (by rintro ⟨h, -⟩; exact absurd h (by decide))
  · exact (c8_read_place_errors true "id0" 2 2 ["a"] ⟨false, true, []⟩).2.2.2.2.1
      "b" "0" "0" "0" rfl (by decide) (by decide)
      (by rintro ⟨h, -⟩; exact absurd h (by decide))
  · exact (c8_read_place_errors true "id0" 2 2 ["a"] ⟨false, true, []⟩).2.2.2.2.2
      "garbage" "line" (by decide)

/-- Claim C8, counterexample to the claim as stated: the claim says
`read_place` errors on out-of-range block coordinates.  The code stores
the parsed coordinates without any range check: on a 2 x 2 device, the
record `a 1000 1000 0` is accepted and stored. -/
theorem c8_counterexample :
    read_place true "id0" 2 2 ["a"]
        [["Array", "size:", "2", "x", "2", "logic", "blocks"],
         ["a", "1000", "1000", "0"]]
      = .ok ⟨false, true, [("a", 1000, 1000, 0)]⟩
    ∧ (2 : Int) < 1000 := by
  exact ⟨rfl, by decide⟩

theorem packer_state_eq (s t : PackerState)
    (h1 : s.atom_clb = t.atom_clb) (h2 : s.atom_pb = t.atom_pb)
    (h3 : s.router_targets = t.router_targets) (h4 : s.mol_valid = t.mol_valid) :
    s = t := by
  cases s
  cases t
  simp_all

theorem place_molecule_atoms_spec (pb_of : AtomId → PbId) (clb : Nat)
    (feas : AtomId → Bool) :
    ∀ (atoms : List AtomId) (s : PackerState),
      (place_molecule_atoms pb_of clb feas atoms s).1.atom_clb
        = (fun b => if b ∈ (place_molecule_atoms pb_of clb feas atoms s).2.1
            then some clb else s.atom_clb b)
      ∧ (place_molecule_atoms pb_of clb feas atoms s).1.atom_pb
        = (fun b => if b ∈ (place_molecule_atoms pb_of clb feas atoms s).2.1
            then some (pb_of b) else s.atom_pb b)
      ∧ (place_molecule_atoms pb_of clb feas atoms s).1.router_targets
        = s.router_targets ++ (place_molecule_atoms pb_of clb feas atoms s).2.1
      ∧ (place_molecule_atoms pb_of clb feas atoms s).1.mol_valid = s.mol_valid
      ∧ ∃ t, atoms = (place_molecule_atoms pb_of clb feas atoms s).2.1 ++ t := by
  intro atoms
  induction atoms with
  | nil =>
    intro s
    refine ⟨?_, ?_, by simp [place_molecule_atoms], rfl, ⟨[], rfl⟩⟩
    · funext b
      simp [place_molecule_atoms]
    · funext b
      simp [place_molecule_atoms]
  | cons a rest ih =>
    intro s
    simp only [place_molecule_atoms]
    by_cases hf : feas a = true
    · rw [if_pos hf]
      obtain ⟨h1, h2, h3, h4, t, ht⟩ := ih (place_atom pb_of clb s a)
      refine ⟨?_, ?_, ?_, ?_, ⟨t, ?_⟩⟩
      · rw [h1]
        funext b
        by_cases hb : b = a
        · subst hb
          by_cases hbp : b ∈ (place_molecule_atoms pb_of clb feas rest
              (place_atom pb_of clb s b)).2.1 <;>
            simp [place_atom, hbp]
        · simp [place_atom, hb, List.mem_cons]
      · rw [h2]
        funext b
        by_cases hb : b = a
        · subst hb
          by_cases hbp : b ∈ (place_molecule_atoms pb_of clb feas rest
              (place_atom pb_of clb s b)).2.1 <;>
            simp [place_atom, hbp]
        · simp [place_atom, hb, List.mem_cons]
      · rw [h3]
        simp [place_atom]
      · exact h4
      · rw [List.cons_append, ← ht]
    · rw [if_neg hf]
      refine ⟨?_, ?_, ?_, rfl, ⟨rest, rfl⟩⟩
      · funext b
        by_cases hb : b = a <;> simp [place_atom, hb]
      · funext b
        by_cases hb : b = a <;> simp [place_atom, hb]
      · simp [place_atom]

theorem foldl_remove_targets :
    ∀ (placed base : List AtomId) (st : PackerState),
      st.router_targets = base ++ placed → (∀ a ∈ placed, a ∉ base) →
      placed.foldl remove_atom_from_target st = { st with router_targets := base } := by
  intro placed
  induction placed with
  | nil =>
    intro base st h _
    simp only [List.foldl_nil]
    cases st
    simp_all
  | cons a rest ih =>
    intro base st h hnb
    simp only [List.foldl_cons]
    have hna : a ∉ base := hnb a (List.mem_cons_self a rest)
    have hstep : remove_atom_from_target st a
        = { st with router_targets := base ++ rest } := by
      simp only [remove_atom_from_target, h]
      rw [List.erase_append_right _ hna, List.erase_cons_head]
    rw [hstep]
    exact ih base _ rfl (fun b hb => hnb b (List.mem_cons_of_mem a hb))

theorem rollback_trace_aux (mol_atoms : MolId → List AtomId)
    (atom_mols : AtomId → List MolId) :
    ∀ (placed : List AtomId) (p : PackerState × List AtomId),
      (placed.foldl (fun p a =>
        (revert_place_atom_block mol_atoms atom_mols a p.1, p.2 ++ [a])) p).2
        = p.2 ++ placed := by
  intro placed
  induction placed with
  | nil => intro p; simp
  | cons a rest ih =>
    intro p
    simp only [List.foldl_cons]
    rw [ih]
    simp

theorem rollback_fst_aux (mol_atoms : MolId → List AtomId)
    (atom_mols : AtomId → List MolId) :
    ∀ (placed : List AtomId) (st : PackerState) (tr : List AtomId),
      (placed.foldl (fun p a =>
        (revert_place_atom_block mol_atoms atom_mols a p.1, p.2 ++ [a])) (st, tr)).1
        = placed.foldl (fun s a => revert_place_atom_block mol_atoms atom_mols a s) st := by
  intro placed
  induction placed with
  | nil => intro st tr; rfl
  | cons a rest ih =>
    intro st tr
    simp only [List.foldl_cons]
    exact ih _ _

theorem foldl_revert_restores (mol_atoms : MolId → List AtomId)
    (atom_mols : AtomId → List MolId) (pb_of : AtomId → PbId) (clb : Nat)
    (s₀ : PackerState) :
    ∀ (placed : List AtomId) (s : PackerState),
      (∀ a ∈ placed, s₀.atom_clb a = none ∧ s₀.atom_pb a = none) →
      (∀ m a, a ∈ placed → m ∈ atom_mols a →
        (mol_atoms m).all (fun b => (s₀.atom_clb b).isNone) = true →
        s₀.mol_valid m = true) →
      s.atom_clb = (fun b => if b ∈ placed then some clb else s₀.atom_clb b) →
      s.atom_pb = (fun b => if b ∈ placed then some (pb_of b) else s₀.atom_pb b) →
      s.router_targets = s₀.router_targets →
      s.mol_valid = s₀.mol_valid →
      placed.Nodup →
      placed.foldl (fun st a => revert_place_atom_block mol_atoms atom_mols a st) s = s₀ := by
  intro placed
  induction placed with
  | nil =>
    intro s _ _ hclb hpb htg hvl _
    simp only [List.foldl_nil]
    refine packer_state_eq s s₀ ?_ ?_ htg hvl
    · rw [hclb]
      funext b
      simp
    · rw [hpb]
      funext b
      simp
  | cons a rest ih =>
    intro s hfree hvalid hclb hpb htg hvl hnd
    rcases List.nodup_cons.mp hnd with ⟨hanr, hndr⟩
    have hfa := hfree a (List.mem_cons_self a rest)
    simp only [List.foldl_cons]
    have hclb1 : (revert_place_atom_block mol_atoms atom_mols a s).atom_clb
        = (fun b => if b ∈ rest then some clb else s₀.atom_clb b) := by
      show (fun b => if b = a then none else s.atom_clb b)
        = (fun b => if b ∈ rest then some clb else s₀.atom_clb b)
      funext b
      by_cases hb : b = a
      · subst hb
        simp [hanr, hfa.1]
      · rw [if_neg hb, hclb]
        simp [List.mem_cons, hb]
    have hpb1 : (revert_place_atom_block mol_atoms atom_mols a s).atom_pb
        = (fun b => if b ∈ rest then some (pb_of b) else s₀.atom_pb b) := by
      show (fun b => if b = a then none else s.atom_pb b)
        = (fun b => if b ∈ rest then some (pb_of b) else s₀.atom_pb b)
      funext b
      by_cases hb : b = a
      · subst hb
        simp [hanr, hfa.2]
      · rw [if_neg hb, hpb]
        simp [List.mem_cons, hb]
    have hvl1 : (revert_place_atom_block mol_atoms atom_mols a s).mol_valid
        = s₀.mol_valid := by
      show (fun m =>
          if m ∈ atom_mols a ∧ (mol_atoms m).all
              (fun b => ((fun b => if b = a then none else s.atom_clb b) b).isNone) = true
          then true else s.mol_valid m)
        = s₀.mol_valid
      funext m
      by_cases hc : m ∈ atom_mols a ∧ (mol_atoms m).all
          (fun b => ((fun b => if b = a then none else s.atom_clb b) b).isNone) = true
      · rw [if_pos hc]
        have hall : (mol_atoms m).all (fun b => (s₀.atom_clb b).isNone) = true := by
          rw [List.all_eq_true] at hc ⊢
          intro b hb
          have h := hc.2 b hb
          by_cases hba : b = a
          · subst hba
            simp [hfa.1]
          · simp only [hba, if_false, ite_false] at h
            rw [hclb] at h
            simp only at h
            by_cases hbr : b ∈ rest
            · rw [if_pos (List.mem_cons_of_mem a hbr)] at h
              simp at h
            · rw [if_neg (by simp [List.mem_cons, hba, hbr])] at h
              exact h
        exact (hvalid m a (List.mem_cons_self a rest) hc.1 hall).symm
      · rw [if_neg hc, hvl]
    refine ih (revert_place_atom_block mol_atoms atom_mols a s)
      (fun b hb => hfree b (List.mem_cons_of_mem a hb))
      (fun m b hb => hvalid m b (List.mem_cons_of_mem a hb))
      hclb1 hpb1 htg hvl1 hndr

theorem attempt_rollback_roundtrip (mol_atoms : MolId → List AtomId)
    (atom_mols : AtomId → List MolId) (pb_of : AtomId → PbId) (clb : Nat)
    (feas : AtomId → Bool) (atoms : List AtomId) (s₀ : PackerState)
    (hnd : atoms.Nodup)
    (hfree : ∀ a ∈ atoms,
      s₀.atom_clb a = none ∧ s₀.atom_pb a = none ∧ a ∉ s₀.router_targets)
    (hvalid : ∀ m a, a ∈ atoms → m ∈ atom_mols a →
      (mol_atoms m).all (fun b => (s₀.atom_clb b).isNone) = true →
      s₀.mol_valid m = true) :
    (rollback_failed_attempt mol_atoms atom_mols
        (place_molecule_atoms pb_of clb feas atoms s₀).2.1
        (place_molecule_atoms pb_of clb feas atoms s₀).1).1 = s₀ := by
  obtain ⟨h1, h2, h3, h4, t, ht⟩ := place_molecule_atoms_spec pb_of clb feas atoms s₀
  have hsub : ∀ a ∈ (place_molecule_atoms pb_of clb feas atoms s₀).2.1, a ∈ atoms :=
    fun a ha => ht ▸ List.mem_append_left t ha
  have hndp : (place_molecule_atoms pb_of clb feas atoms s₀).2.1.Nodup :=
    (List.nodup_append.mp (ht ▸ hnd)).1
  unfold rollback_failed_attempt
  rw [rollback_fst_aux]
  have hrm : (place_molecule_atoms pb_of clb feas atoms s₀).2.1.foldl
        remove_atom_from_target (place_molecule_atoms pb_of clb feas atoms s₀).1
      = { (place_molecule_atoms pb_of clb feas atoms s₀).1 with
          router_targets := s₀.router_targets } :=
    foldl_remove_targets _ s₀.router_targets _ h3
      (fun a ha => (hfree a (hsub a ha)).2.2)
  rw [hrm]
  exact foldl_revert_restores mol_atoms atom_mols pb_of clb s₀ _ _
    (fun a ha => ⟨(hfree a (hsub a ha)).1, (hfree a (hsub a ha)).2.1⟩)
    (fun m a ha => hvalid m a (hsub a ha))
    h1 h2 rfl h4 hndp

/-- Claim C1 (amended): for every call to `try_pack_molecule` that returns
a status other than PASSED, the packer state is restored to its pre-call
value — every provisionally placed atom ends with no cluster and no pb
mapping, its attempt-local pb allocation is gone, the molecule valid flags
are restored, and the tried atoms are removed from the intra-cluster router
target set; both the target removals and the `revert_place_atom_block`
calls run in forward placement order (`for i = 0; i < failed_location;
i++`), not LIFO order.  Preconditions: the molecule's atoms are distinct
and unplaced before the call, and molecules whose atoms are all free are
already valid (the packer's valid-flag invariant). -/
theorem c1_try_pack_rollback (mol_atoms : MolId → List AtomId)
    (atom_mols : AtomId → List MolId) (clb_index : Nat) (mol : MolId)
    (attempts : List PackAttempt) (s₀ : PackerState)
    (hnd : (mol_atoms mol).Nodup)
    (hfree : ∀ a ∈ mol_atoms mol,
      s₀.atom_clb a = none ∧ s₀.atom_pb a = none ∧ a ∉ s₀.router_targets)
    (hvalid : ∀ m a, a ∈ mol_atoms mol → m ∈ atom_mols a →
      (mol_atoms m).all (fun b => (s₀.atom_clb b).isNone) = true →
      s₀.mol_valid m = true) :
    ((try_pack_molecule mol_atoms atom_mols clb_index mol attempts s₀).1
        ≠ BlockPackStatus.PASSED →
      (try_pack_molecule mol_atoms atom_mols clb_index mol attempts s₀).2 = s₀)
    ∧ (∀ placed st,
        (rollback_failed_attempt mol_atoms atom_mols placed st).2 = placed) := by
  constructor
  · induction attempts with
    | nil => intro _; rfl
    | cons att rest ih =>
      intro hne
      unfold try_pack_molecule at hne ⊢
      by_cases hok : ((place_molecule_atoms att.pb_of clb_index att.feas
          (mol_atoms mol) s₀).2.2 && att.post_ok) = true
      · rw [if_pos hok] at hne
        exact absurd rfl hne
      · rw [if_neg hok] at hne ⊢
        rw [attempt_rollback_roundtrip mol_atoms atom_mols att.pb_of clb_index
          att.feas (mol_atoms mol) s₀ hnd hfree hvalid] at hne ⊢
        exact ih hne
  · intro placed st
    unfold rollback_failed_attempt
    rw [rollback_trace_aux]
    simp

theorem c1_try_pack_rollback_witness :
    (try_pack_molecule (fun _ => [5, 7]) (fun _ => [0]) 0 0
        [⟨fun a => a, fun _ => true, false⟩]
        ⟨fun _ => none, fun _ => none, [], fun _ => true⟩).2
      = ⟨fun _ => none, fun _ => none, [], fun _ => true⟩
    ∧ (rollback_failed_attempt (fun _ => [5, 7]) (fun _ => [0]) [5, 7]
        ⟨fun _ => none, fun _ => none, [], fun _ => true⟩).2 = [5, 7] := by
  have h := c1_try_pack_rollback (fun _ => [5, 7]) (fun _ => [0]) 0 0
    [⟨fun a => a, fun _ => true, false⟩]
    ⟨fun _ => none, fun _ => none, [], fun _ => true⟩
    (by decide)
    (fun a _ => ⟨rfl, rfl, by simp⟩)
    (fun m a _ _ _ => rfl)
  exact ⟨h.1 (by decide), h.2 [5, 7] _⟩

/-- Claim C1, counterexample to the claim as stated: the claim says the
tried atoms are reverted in LIFO order.  For a two-atom molecule `[5, 7]`
that is fully placed and then fails the post-placement check, the failure
path reverts in forward placement order `[5, 7]` (both rollback loops run
`for i = 0; i < failed_location; i++`), not in LIFO order `[7, 5]`. -/
theorem c1_counterexample :
    (rollback_failed_attempt (fun _ => [5, 7]) (fun _ => [0])
        (place_molecule_atoms (fun a => a) 0 (fun _ => true) [5, 7]
          ⟨fun _ => none, fun _ => none, [], fun _ => true⟩).2.1
        (place_molecule_atoms (fun a => a) 0 (fun _ => true) [5, 7]
          ⟨fun _ => none, fun _ => none, [], fun _ => true⟩).1).2
      = [5, 7]
    ∧ ([5, 7] : List AtomId) ≠ [7, 5] := by
  exact ⟨rfl, by decide⟩

/-- Claim C2: if `check_clustering` succeeds (so `do_clustering`, which
calls it at cluster.cpp line 717, completes without raising an error),
then every atom a has a cluster c with atom_cluster(a) = c and c in
range, the reverse mapping satisfies pb_atom(atom_pb(a)) = a, the
parent_pb chain from atom_pb(a) terminates at cluster c's root pb, a is
among cluster c's atoms, and no other cluster contains a; any violation
makes `check_clustering` return false, i.e. the source throws a
VPR_ERROR_PACK. -/
theorem c2_check_clustering (res : ClusteringResult)
    (hpbs : ∀ a p, res.atom_pb a = some p → p ∈ res.all_pbs)
    (hcheck : check_clustering res = true) :
    ∀ a ∈ res.atoms, ∃ c p,
      res.atom_clb a = some c ∧ c < res.num_clb
      ∧ res.atom_pb a = some p ∧ res.pb_atom p = some a
      ∧ root_of res.pb_parent (res.all_pbs.length + 1) p
          = some (res.clb_root c)
      ∧ a ∈ cluster_atoms res c
      ∧ ∀ i, i < res.num_clb → a ∈ cluster_atoms res i → i = c := by
  intro a hmem
  unfold check_clustering at hcheck
  rw [Bool.and_eq_true, Bool.and_eq_true, Bool.and_eq_true] at hcheck
  obtain ⟨⟨⟨hatoms, _hlinks⟩, hnd⟩, _hcov⟩ := hcheck
  have hnd' := of_decide_eq_true hnd
  have ha := List.all_eq_true.mp hatoms a hmem
  unfold check_atom at ha
  cases hpb : res.atom_pb a with
  | none => rw [hpb] at ha; simp at ha
  | some p =>
    rw [hpb, Bool.and_eq_true] at ha
    obtain ⟨hpba, ha2⟩ := ha
    have hpba' := of_decide_eq_true hpba
    cases hclb : res.atom_clb a with
    | none => rw [hclb] at ha2; simp at ha2
    | some c =>
      rw [hclb, Bool.and_eq_true] at ha2
      obtain ⟨hlt, hroot⟩ := ha2
      have hlt' := of_decide_eq_true hlt
      have hroot' := of_decide_eq_true hroot
      have hmemc : a ∈ cluster_atoms res c := by
        unfold cluster_atoms
        refine List.mem_filterMap.mpr ⟨p, hpbs a p hpb, ?_⟩
        rw [if_pos hroot', hpba']
      refine ⟨c, p, rfl, hlt', rfl, hpba', hroot', hmemc, ?_⟩
      intro i hi hai
      by_contra hne
      obtain ⟨-, hpw⟩ := List.nodup_flatMap.mp hnd'
      have hsymm : Symmetric (List.Disjoint on cluster_atoms res) :=
        fun _ _ h => h.symm
      exact hpw.forall hsymm (List.mem_range.mpr hi)
        (List.mem_range.mpr hlt') hne hai hmemc

theorem c2_check_clustering_witness :
    (∀ a p, check_clustering_example.atom_pb a = some p
        → p ∈ check_clustering_example.all_pbs)
    ∧ check_clustering check_clustering_example = true
    ∧ ∃ c p,
      check_clustering_example.atom_clb 0 = some c
      ∧ c < check_clustering_example.num_clb
      ∧ check_clustering_example.atom_pb 0 = some p
      ∧ check_clustering_example.pb_atom p = some 0
      ∧ root_of check_clustering_example.pb_parent
          (check_clustering_example.all_pbs.length + 1) p
          = some (check_clustering_example.clb_root c)
      ∧ 0 ∈ cluster_atoms check_clustering_example c
      ∧ ∀ i, i < check_clustering_example.num_clb
          → 0 ∈ cluster_atoms check_clustering_example i → i = c := by
  have hpbs : ∀ a p, check_clustering_example.atom_pb a = some p
      → p ∈ check_clustering_example.all_pbs := by
    intro a p h
    by_cases ha : a = 0
    · subst ha
      simp [check_clustering_example] at h
      subst h
      simp [check_clustering_example]
    · simp [check_clustering_example, ha] at h
  have hchk : check_clustering check_clustering_example = true := by decide
  exact ⟨hpbs, hchk,
    c2_check_clustering check_clustering_example hpbs hchk 0 (by decide)⟩
